import Mathlib

/-!
A verification development for the HTTP file-serving engine.

The C sources `http_util.c`, `http_methods.c`, `http_request.c`, `file_util.c`,
`string_util.c` and `media_util.c` are embedded as pure Lean functions.

* A C string is the list of its bytes before the terminating NUL (`List Nat`,
  every byte below 256).
* A `FILE *` is a record of the bytes still unread, the end-of-file indicator
  and the bytes written so far.
* The file system is an explicit state that the handlers pass along.
-/

namespace HttpServer

/-! ## Bytes and C strings -/

/-- The bytes of an ASCII string literal. -/
def bytes (s : String) : List Nat := s.toList.map Char.toNat

/-- The C string held by a buffer: the bytes before the first NUL. -/
def cstr (buf : List Nat) : List Nat := buf.takeWhile (fun c => c != 0)

/-- The function `isspace` of the C locale: space, `\t`, `\n`, `\v`, `\f`, `\r`. -/
def isspace (c : Nat) : Bool := c == 32 || (9 ≤ c && c ≤ 13)

/-- The function `tolower` of the C locale. -/
def tolower (c : Nat) : Nat := if 65 ≤ c ∧ c ≤ 90 then c + 32 else c

/-- The conversion `(unsigned char)c` of an `int`. -/
def toUChar (c : Int) : Nat := (c % 256).toNat

/-- The conversion of an integer value to `int` (32 bits, two's complement). The
sign test compares natural numbers, so that unfolding it on a value that is not
a numeral stops at once. -/
def toInt32 (n : Int) : Int :=
  if (n % 4294967296).toNat < 2147483648 then n % 4294967296 else n % 4294967296 - 4294967296

/-! ## `sscanf(escUri, "%%%02x", &c)` -/

/-- Value of a hexadecimal digit character, if it is one. -/
def hexval (c : Nat) : Option Nat :=
  if 48 ≤ c ∧ c ≤ 57 then some (c - 48)
  else if 97 ≤ c ∧ c ≤ 102 then some (c - 87)
  else if 65 ≤ c ∧ c ≤ 70 then some (c - 55)
  else none

/-- The values of the leading hexadecimal digits of the input, at most `w` of them. -/
def hexDigits : Nat → List Nat → List Nat
  | 0, _ => []
  | _ + 1, [] => []
  | w + 1, c :: cs =>
    match hexval c with
    | some v => v :: hexDigits w cs
    | none => []

/-- The number denoted by a sequence of hexadecimal digit values. -/
def hexValue (ds : List Nat) : Nat := ds.foldl (fun a d => 16 * a + d) 0

/-- Outcome of a `scanf` call with one conversion: `EOF` (input failure before
the conversion), `0` (matching failure) or `1` with the converted value. -/
inductive Scan where
  | eof
  | nomatch
  | value (c : Int)
  deriving DecidableEq, Repr

/-- The unsigned part of a `%x` item of field width `w`: an optional `0x` or
`0X`, then at least one hexadecimal digit (ISO C; a bare `0x` that exhausts the
width is a matching failure, older C libraries read it as zero). -/
def scanHexBody (w : Nat) (s : List Nat) : Option Nat :=
  match s with
  | a :: x :: rest =>
    if 2 ≤ w ∧ a = 48 ∧ (x = 120 ∨ x = 88) then
      (if hexDigits (w - 2) rest = [] then none else some (hexValue (hexDigits (w - 2) rest)))
    else
      (if hexDigits w s = [] then none else some (hexValue (hexDigits w s)))
  | _ => if hexDigits w s = [] then none else some (hexValue (hexDigits w s))

/-- The conversion `%x` with field width `w`: white space is skipped (it does
not count against the width), then an optional sign and the digits. -/
def scanHex (w : Nat) (s : List Nat) : Scan :=
  match s.dropWhile isspace with
  | [] => .eof
  | c :: cs =>
    if c = 45 then
      match scanHexBody (w - 1) cs with
      | some v => .value (-(v : Int))
      | none => .nomatch
    else if c = 43 then
      match scanHexBody (w - 1) cs with
      | some v => .value (v : Int)
      | none => .nomatch
    else
      match scanHexBody w (c :: cs) with
      | some v => .value (v : Int)
      | none => .nomatch

/-- The call `sscanf(escUri, "%%%02x", &c)`: a literal `%`, then `%x` of width 2. -/
def sscanf_pct_02x (s : List Nat) : Scan :=
  match s.dropWhile isspace with
  | [] => .eof
  | c :: cs => if c = 37 then scanHex 2 cs else .nomatch

/-! ## `unescapeUri` (http_util.c) -/

/-- Result of `unescapeUri`: `NULL`, the bytes stored in `uri` before the final
NUL, or undefined behaviour (the code uses `c` uninitialised, or moves `escUri`
beyond the terminating NUL of its input). -/
inductive Unescaped where
  | null
  | undefinedBehaviour
  | uri (buf : List Nat)
  deriving DecidableEq, Repr

/-- The store `*p++ = c` seen from the front of the output. -/
def Unescaped.push (c : Nat) : Unescaped → Unescaped
  | .uri buf => .uri (c :: buf)
  | .null => .null
  | .undefinedBehaviour => .undefinedBehaviour

/-- The function `unescapeUri`: the loop over `escUri`. -/
def unescapeUri : List Nat → Unescaped
  | [] => .uri []
  | c :: rest =>
    if c = 37 then
      match sscanf_pct_02x (c :: rest) with
      | .nomatch => .null
      | .eof => .undefinedBehaviour
      | .value v =>
        match rest with
        | _ :: _ :: rest2 => (unescapeUri rest2).push (toUChar v)
        | _ => .undefinedBehaviour
    else (unescapeUri rest).push c

/-! ## Percent-encoding (the inverse direction, stated from the specification) -/

/-- How one byte is written in an encoding: as itself, or as `%XX` with a
choice of letter case for each of the two digits. -/
inductive Esc where
  | raw
  | pct (upperHi upperLo : Bool)
  deriving DecidableEq, Repr

/-- The character of a hexadecimal digit value in upper or lower case. -/
def hexChar (upper : Bool) (d : Nat) : Nat :=
  if d < 10 then 48 + d else if upper then 55 + d else 87 + d

/-- The encoding of one byte. -/
def escapeByte (b : Nat) : Esc → List Nat
  | .raw => [b]
  | .pct hi lo => [37, hexChar hi (b / 16), hexChar lo (b % 16)]

/-- The encoding of a byte string, byte by byte. -/
def escapeUri : List (Nat × Esc) → List Nat
  | [] => []
  | (b, e) :: rest => escapeByte b e ++ escapeUri rest


/-! ## Header store (`properties.h`, not among the sources) -/

/-- Modelled from the spec: the Header Store of section 4.1, whose code
(`properties.c`) is not among the sources. An ordered sequence of (name, value)
pairs with a fixed capacity; the bound on the length of names and values is not
modelled. -/
structure Properties where
  cap : Nat
  entries : List (List Nat × List Nat)
  deriving DecidableEq, Repr

/-- Modelled from the spec: `newProperties` creates an empty store. -/
def newProperties (cap : Nat) : Properties := ⟨cap, []⟩

/-- Modelled from the spec: `put(name, value) -> bool` appends a pair if
capacity remains and reports failure when the store is full; duplicate names are
retained in insertion order. -/
def putProperty (p : Properties) (name val : List Nat) : Properties × Bool :=
  if p.entries.length < p.cap then (⟨p.cap, p.entries ++ [(name, val)]⟩, true) else (p, false)

/-- Modelled from the spec: `get(index) -> (name, value) | end`. -/
def getProperty (p : Properties) (i : Nat) : Option (List Nat × List Nat) := p.entries.get? i

/-- The scan of `find`: first entry at or after index `i` with exactly this name. -/
def findFrom (name : List Nat) : Nat → List (List Nat × List Nat) → Option (Nat × List Nat)
  | _, [] => none
  | i, (n, v) :: rest => if n = name then some (i, v) else findFrom name (i + 1) rest

/-- Modelled from the spec: `find(name, startIndex) -> value | not-found`, a
case-sensitive first-match scan from a given position; `none` stands for the
result `SIZE_MAX`. -/
def findProperty (p : Properties) (start : Nat) (name : List Nat) : Option (Nat × List Nat) :=
  findFrom name start (p.entries.drop start)

/-! ## Streams -/

/-- A `FILE *`: the bytes not yet read, the end-of-file indicator, the bytes
written so far, and how many more bytes the device accepts before a write falls
short (`none`: every write succeeds). -/
structure Stream where
  input : List Nat
  eof : Bool
  output : List Nat
  room : Option Nat
  deriving DecidableEq, Repr

/-- A stream opened for reading over the given bytes. -/
def Stream.reader (content : List Nat) : Stream := ⟨content, false, [], none⟩

/-- The call `fread(buf, 1, n, s)`: the bytes read and the stream afterwards; the
end-of-file indicator is set when fewer than `n` bytes were left. -/
def fread (s : Stream) (n : Nat) : List Nat × Stream :=
  (s.input.take n, { s with input := s.input.drop n, eof := s.eof || decide (s.input.length < n) })

/-- The call `fwrite(buf, 1, n, s)` (also the effect of `fprintf`): the number of
bytes written and the stream afterwards. -/
def fwrite (s : Stream) (buf : List Nat) : Nat × Stream :=
  match s.room with
  | none => (buf.length, { s with output := s.output ++ buf })
  | some r =>
    ((buf.take r).length, { s with output := s.output ++ buf.take r, room := some (r - buf.length) })

/-- A call of `fprintf` whose return value is ignored. -/
def fprintf (s : Stream) (text : List Nat) : Stream := (fwrite s text).2

/-- The bytes `fgets` stores for a buffer with room for `k` more bytes: it stops
after a newline, at the end of the input, or when the room is used up. -/
def fgetsLine : Nat → List Nat → List Nat
  | 0, _ => []
  | _ + 1, [] => []
  | k + 1, c :: cs => if c = 10 then [c] else c :: fgetsLine k cs

/-- The call `fgets(buf, size, s)`: the buffer contents (`none` is the result
`NULL`: no room, or end of input before any byte) and the stream afterwards. The
end-of-file indicator is set when the input ran out before a newline and before
the buffer was full. -/
def fgets (size : Nat) (s : Stream) : Option (List Nat) × Stream :=
  if size = 0 then (none, s)
  else if size = 1 then (some [], s)
  else
    let line := fgetsLine (size - 1) s.input
    let s1 : Stream :=
      { s with input := s.input.drop line.length,
               eof := s.eof || (line.getLast? != some 10 && decide (line.length < size - 1)) }
    if line = [] then (none, s1) else (some line, s1)

/-- The function `tmpStringFile` (file_util.c): a rewound temporary stream
holding the bytes of the string. -/
def tmpStringFile (contentStr : List Nat) : Stream := Stream.reader contentStr

/-! ## Path strings (string_util.c, file_util.c) -/

/-- The function `strendswith`. -/
def strendswith (src endswith : List Nat) : Bool :=
  decide (endswith.length ≤ src.length) && (src.drop (src.length - endswith.length) == endswith)

/-- The index of the last occurrence of `c` (the function `strrchr`). -/
def strrchr (s : List Nat) (c : Nat) : Option Nat :=
  match s.reverse.indexOf? c with
  | some j => some (s.length - 1 - j)
  | none => none

/-- The function `getPath`: the text before the last `/`, if there is one. -/
def getPath (filePath : List Nat) : Option (List Nat) :=
  match strrchr filePath 47 with
  | some i => some (filePath.take i)
  | none => none

/-- The function `getExtension`: the text after the last `.`, if there is one. -/
def getExtension (filePath : List Nat) : Option (List Nat) :=
  match strrchr filePath 46 with
  | some i => some (filePath.drop (i + 1))
  | none => none

/-- The function `strlower`. -/
def strlower (src : List Nat) : List Nat := src.map tolower

/-! ## The file system

The operating system calls the handlers make are modelled on a flat table from
path names to nodes. A path names a node literally, up to trailing slashes:
`.` and `..` segments, repeated slashes and symbolic links are not resolved.
Permissions are reduced to a list of locked paths, which can be neither
removed nor created nor opened, for reading or for writing; `stat` still
answers for them. -/

/-- A node: a regular file with its bytes, a directory, or another file type
(device, FIFO, socket), each with its modification time. -/
inductive Node where
  | reg (content : List Nat) (mtime : Nat)
  | dir (mtime : Nat)
  | other (mtime : Nat)
  deriving DecidableEq, Repr

/-- The file system state: the nodes by path (stored without trailing slash),
the locked paths and the current time. -/
structure FileSys where
  nodes : List (List Nat × Node)
  locked : List (List Nat)
  clock : Nat
  deriving DecidableEq, Repr

/-- The file type bits of `st_mode`, as tested by `S_ISREG` and `S_ISDIR`. -/
inductive Mode where
  | reg
  | dir
  | other
  deriving DecidableEq, Repr

/-- The fields of `struct stat` the handlers read. -/
structure StatBuf where
  st_mode : Mode
  st_size : Nat
  st_mtime : Nat
  deriving DecidableEq, Repr

/-- A path without its trailing slashes. -/
def stripSlash (path : List Nat) : List Nat := path.rdropWhile (fun c => c == 47)

/-- The node a path names. -/
def FileSys.node (fs : FileSys) (path : List Nat) : Option Node := fs.nodes.lookup (stripSlash path)

/-- The table with the entry of a path removed. -/
def FileSys.erase (fs : FileSys) (key : List Nat) : FileSys :=
  { fs with nodes := fs.nodes.filter (fun e => e.1 != key) }

/-- The table with the entry of a path set. -/
def FileSys.set (fs : FileSys) (key : List Nat) (n : Node) : FileSys :=
  { fs with nodes := (key, n) :: fs.nodes.filter (fun e => e.1 != key) }

/-- The call `stat(path, &sb)`; `none` is a non-zero result. A path with a
trailing slash names directories only. -/
def stat (fs : FileSys) (path : List Nat) : Option StatBuf :=
  if path = [] then none
  else
    match fs.node path with
    | none => none
    | some (.dir m) => some ⟨.dir, 0, m⟩
    | some (.reg c m) => if path.getLast? = some 47 then none else some ⟨.reg, c.length, m⟩
    | some (.other m) => if path.getLast? = some 47 then none else some ⟨.other, 0, m⟩

/-- The call `unlink(path)`; `none` is a non-zero result. It removes a node that
is not a directory unless the path is locked. -/
def unlink (fs : FileSys) (path : List Nat) : Option FileSys :=
  if path.getLast? = some 47 ∨ stripSlash path ∈ fs.locked then none
  else
    match fs.node path with
    | some (.reg _ _) => some (fs.erase (stripSlash path))
    | some (.other _) => some (fs.erase (stripSlash path))
    | _ => none

/-- Whether some node lies below the directory with this key. -/
def FileSys.hasChild (fs : FileSys) (key : List Nat) : Bool :=
  fs.nodes.any (fun e => (key ++ [47]).isPrefixOf e.1)

/-- The call `rmdir(path)`; `none` is a non-zero result. It removes an empty
directory unless the path is locked. -/
def rmdir (fs : FileSys) (path : List Nat) : Option FileSys :=
  if stripSlash path ∈ fs.locked ∨ fs.hasChild (stripSlash path) = true then none
  else
    match fs.node path with
    | some (.dir _) => some (fs.erase (stripSlash path))
    | _ => none

/-- What the directory part of a path allows: entries can be made below it,
it is not a directory (`ENOTDIR`), or it does not exist (`ENOENT`). -/
inductive Parent where
  | usable
  | notdir
  | missing
  deriving DecidableEq, Repr

/-- The directory part of a path, looked up. A path without `/` lies in the
working directory and a path right below `/` in the root; both exist. -/
def FileSys.parent (fs : FileSys) (key : List Nat) : Parent :=
  match getPath key with
  | none => .usable
  | some par =>
    if stripSlash par = [] then .usable
    else
      match fs.node par with
      | some (.dir _) => .usable
      | some _ => .notdir
      | none => .missing

/-- Result of `mkdir`: success, failure with `errno == ENOTDIR`, other failure. -/
inductive MkdirResult where
  | ok (fs : FileSys)
  | enotdir
  | failed
  deriving DecidableEq, Repr

/-- The call `mkdir(path, mode)`. -/
def mkdir (fs : FileSys) (path : List Nat) : MkdirResult :=
  if stripSlash path = [] then .failed
  else
    match fs.parent (stripSlash path) with
    | .notdir => .enotdir
    | .missing => .failed
    | .usable =>
      if (fs.node path).isSome ∨ stripSlash path ∈ fs.locked then .failed
      else .ok (fs.set (stripSlash path) (.dir fs.clock))

/-- The loop of `mkdirs` between two path separators: `buf` is the part of the
path before `p`; at each `/` and at the end of the path the prefix is made a
directory, and `ENOTDIR` ends the loop with -1. -/
def mkdirsScan (fs : FileSys) (buf : List Nat) : List Nat → FileSys × Int
  | [] =>
    match mkdir fs buf with
    | .ok fs1 => (fs1, 0)
    | .enotdir => (fs, -1)
    | .failed => (fs, 0)
  | c :: cs =>
    if c = 47 then
      match mkdir fs buf with
      | .enotdir => (fs, -1)
      | .ok fs1 => if cs = [] then (fs1, 0) else mkdirsScan fs1 (buf ++ [47]) cs
      | .failed => if cs = [] then (fs, 0) else mkdirsScan fs (buf ++ [47]) cs
    else mkdirsScan fs (buf ++ [c]) cs

/-- The function `mkdirs` (file_util.c). -/
def mkdirs (fs : FileSys) (path : List Nat) : FileSys × Int :=
  match path with
  | [] => (fs, 0)
  | c :: cs =>
    if c = 47 then (if cs = [] then (fs, 0) else mkdirsScan fs [47] cs)
    else mkdirsScan fs [] (c :: cs)

/-- The call `fopen(path, "w")`; `none` is the result `NULL`. The file is
created or truncated. Directories, other file types, locked paths and paths
whose directory part is not a directory cannot be opened. -/
def fopen_w (fs : FileSys) (path : List Nat) : Option FileSys :=
  if path = [] ∨ path.getLast? = some 47 ∨ path ∈ fs.locked then none
  else if fs.parent path ≠ .usable then none
  else
    match fs.node path with
    | some (.dir _) => none
    | some (.other _) => none
    | _ => some (fs.set path (.reg [] fs.clock))

/-- The call `fclose` on a stream opened by `fopen(path, "w")`: the bytes
written become the file's content. -/
def fclose_w (fs : FileSys) (path : List Nat) (s : Stream) : FileSys :=
  fs.set path (.reg s.output fs.clock)

/-- The call `fopen(path, "r")`; `none` is the result `NULL`: the path is locked,
or it is not a regular file. -/
def fopen_r (fs : FileSys) (path : List Nat) : Option Stream :=
  if path ∈ fs.locked then none
  else
    match fs.node path with
    | some (.reg c _) => some (Stream.reader c)
    | _ => none

/-! ## Configuration (`http_server.h`, not among the sources) -/

/-- Modelled from the spec: the macro `CRLF` of the absent `http_server.h`; every
line on the wire ends with carriage return and line feed. -/
def CRLF : List Nat := [13, 10]

/-- The read-only server configuration and the collaborators whose code is not
among the sources: the fields of the global `server`, the buffer size `MAXBUF`,
the capacity of a header store, the RFC 1123 time formatter of `time_util`, and
the directory listing generator in the two-argument form the handlers call
(the listing's bytes and modification time, or nothing on failure). Output to
`stderr` under `server.debug` is not modelled. -/
structure Config where
  content_base : List Nat
  server_name : List Nat
  server_protocol : List Nat
  MAXBUF : Nat
  MAXBUF_pos : 0 < MAXBUF
  MAX_PROPS : Nat
  milliTimeToRFC_1123_Date_Time : Nat → List Nat
  get_dir_listings : FileSys → List Nat → List Nat → Option (List Nat × Nat)

/-! ## `copyFileStreamBytes` (file_util.c) -/

/-- The loop of `copyFileStreamBytes`, one iteration per unit of fuel; `none`
when the fuel runs out before the loop ends. The result is the input stream, the
output stream and the return value. -/
def copyLoop (maxbuf : Nat) : Nat → Stream → Stream → Int → Option (Stream × Stream × Int)
  | 0, _, _, _ => none
  | fuel + 1, istream, ostream, nbytes =>
    if 0 < nbytes ∧ istream.eof = false then
      let ntoread : Int := if nbytes < (maxbuf : Int) then nbytes else (maxbuf : Int)
      let r := fread istream ntoread.toNat
      if 0 < r.1.length then
        let w := fwrite ostream r.1
        if w.1 < r.1.length then some (r.2, w.2, -1)
        else copyLoop maxbuf fuel r.2 w.2 (nbytes - (r.1.length : Int))
      else copyLoop maxbuf fuel r.2 ostream nbytes
    else some (istream, ostream, 0)

/-- The function `copyFileStreamBytes`. Every iteration but the last either
lowers `nbytes` or sets the end-of-file indicator, so `nbytes + 2` iterations
are enough. -/
def copyFileStreamBytes (cfg : Config) (istream ostream : Stream) (nbytes : Int) :
    Option (Stream × Stream × Int) :=
  copyLoop cfg.MAXBUF (nbytes.toNat + 2) istream ostream nbytes

/-! ## Response writer (http_util.c) -/

/-- The conversion `%lu` of `printf`. -/
def fmt_lu (n : Nat) : List Nat := (Nat.toDigits 10 n).map Char.toNat

/-- The conversion `%d` of `printf`. -/
def fmt_d (i : Int) : List Nat :=
  if i < 0 then 45 :: fmt_lu (-i).toNat else fmt_lu i.toNat

/-- The function `sendResponseStatus`: `fprintf(ostream, "%s %d %s %s", ...)`. -/
def sendResponseStatus (cfg : Config) (ostream : Stream) (status : Int) (statusMsg : List Nat) :
    Stream :=
  fprintf ostream (cfg.server_protocol ++ [32] ++ fmt_d status ++ [32] ++ statusMsg ++ [32] ++ CRLF)

/-- The loop of `sendResponseHeaders`: `getProperty(responseHeaders, i, name, val)`
for `i = 0, 1, ...` visits the entries in store order until the end, and each
is written as `name: value` and `CRLF`. -/
def sendHeaderLines : List (List Nat × List Nat) → Stream → Stream
  | [], ostream => ostream
  | (name, val) :: rest, ostream =>
    sendHeaderLines rest (fprintf ostream (name ++ [58, 32] ++ val ++ CRLF))

/-- The function `sendResponseHeaders`: the header lines, then a blank line. -/
def sendResponseHeaders (ostream : Stream) (responseHeaders : Properties) : Stream :=
  fprintf (sendHeaderLines responseHeaders.entries ostream) CRLF

/-- The error page of `sendErrorResponse`: the result of `sprintf` with the
format `<html><head><title>%d %s</title></head><body>%d %s</body></html>`. -/
def errorBody (status : Int) (statusMsg : List Nat) : List Nat :=
  bytes "<html><head><title>" ++ fmt_d status ++ [32] ++ statusMsg ++
    bytes "</title></head><body>" ++ fmt_d status ++ [32] ++ statusMsg ++ bytes "</body></html>"

/-- The function `sendErrorResponse`: the connection and the header store afterwards.
The page is taken to fit its buffer `errorBody` of `2*MAXBUF` characters. -/
def sendErrorResponse (cfg : Config) (ostream : Stream) (status : Int) (statusMsg : List Nat)
    (responseHeaders : Properties) : Option (Stream × Properties) :=
  let o1 := sendResponseStatus cfg ostream status statusMsg
  let body := errorBody status statusMsg
  let tmpStream := tmpStringFile body
  let contentLen := body.length
  let h1 := (putProperty responseHeaders (bytes "Content-Length") (fmt_lu contentLen)).1
  let h2 := (putProperty h1 (bytes "Content-type") (bytes "text/html")).1
  let o2 := sendResponseHeaders o1 h2
  match copyFileStreamBytes cfg tmpStream o2 (toInt32 (contentLen : Int)) with
  | some (_, o3, _) => some (o3, h2)
  | none => none

/-! ## Media types (media_util.c) -/

/-- The function `getMediaType`, reading the table `props`. The test of the last
character is modelled as false for an empty name, where the code reads
`filename[-1]`. -/
def getMediaType (props : Properties) (filename : List Nat) : List Nat :=
  if filename.getLast? = some 47 then bytes "text/directory"
  else
    match getExtension filename with
    | none => bytes "application/octet-stream"
    | some ext =>
      match findProperty props 0 (strlower ext) with
      | some (_, mediaType) => mediaType
      | none => bytes "application/octet-stream"

/-! ## Method handlers (http_methods.c) -/

/-- The function `resolveUri`: `strcpy` of the content base, `strcat` of the URI. -/
def resolveUri (cfg : Config) (uri : List Nat) : List Nat := cfg.content_base ++ uri

/-- The state a handler leaves behind: the file system, the connection and the
response header store. -/
structure Outcome where
  fs : FileSys
  stream : Stream
  responseHeaders : Properties
  deriving DecidableEq, Repr

/-- A handler that calls `sendErrorResponse` and returns. -/
def replyError (cfg : Config) (fs : FileSys) (stream : Stream) (status : Int)
    (statusMsg : List Nat) (responseHeaders : Properties) : Option Outcome :=
  match sendErrorResponse cfg stream status statusMsg responseHeaders with
  | some (o, h) => some ⟨fs, o, h⟩
  | none => none

/-- The second half of `do_get_or_head` (from "record the file length" on):
`contentStream` is the listing stream when one was generated, `sb` the file
status in force. A `NULL` result of `fopen` would be passed on to `feof`; the
function has no result then. -/
def do_get_or_head_send (cfg : Config) (props : Properties) (fs : FileSys) (stream : Stream)
    (filePath : List Nat) (responseHeaders : Properties) (contentStream : Option Stream)
    (sb : StatBuf) (sendContent : Bool) : Option Outcome :=
  let contentLen := sb.st_size
  let h1 := (putProperty responseHeaders (bytes "Content-Length") (fmt_lu contentLen)).1
  let h2 := (putProperty h1 (bytes "Last-Modified") (cfg.milliTimeToRFC_1123_Date_Time sb.st_mtime)).1
  let buf := getMediaType props filePath
  let buf := if buf = bytes "text/directory" then bytes "text/html" else buf
  let h3 := (putProperty h2 (bytes "Content-type") buf).1
  let o1 := sendResponseStatus cfg stream 200 (bytes "OK")
  let o2 := sendResponseHeaders o1 h3
  if sendContent then
    match (match contentStream with
           | some s => some s
           | none => fopen_r fs filePath) with
    | none => none
    | some cs =>
      match copyFileStreamBytes cfg cs o2 (toInt32 (contentLen : Int)) with
      | some (_, o3, _) => some ⟨fs, o3, h3⟩
      | none => none
  else some ⟨fs, o2, h3⟩

/-- The function `do_get_or_head`. -/
def do_get_or_head (cfg : Config) (props : Properties) (fs : FileSys) (stream : Stream)
    (uri : List Nat) (_requestHeaders responseHeaders : Properties) (sendContent : Bool) :
    Option Outcome :=
  let filePath := resolveUri cfg uri
  match stat fs filePath with
  | none => replyError cfg fs stream 404 (bytes "Not Found") responseHeaders
  | some sb =>
    if sb.st_mode = .dir ∧ strendswith filePath [47] = true then
      match cfg.get_dir_listings fs uri filePath with
      | none => replyError cfg fs stream 405 (bytes "Method Not Allowed") responseHeaders
      | some (listing, mtime) =>
        do_get_or_head_send cfg props fs stream filePath responseHeaders
          (some (Stream.reader listing)) ⟨.reg, listing.length, mtime⟩ sendContent
    else if sb.st_mode ≠ .reg then
      replyError cfg fs stream 404 (bytes "Not Found") responseHeaders
    else do_get_or_head_send cfg props fs stream filePath responseHeaders none sb sendContent

/-- The function `do_get`. -/
def do_get (cfg : Config) (props : Properties) (fs : FileSys) (stream : Stream)
    (uri : List Nat) (requestHeaders responseHeaders : Properties) : Option Outcome :=
  do_get_or_head cfg props fs stream uri requestHeaders responseHeaders true

/-- The function `do_head`. -/
def do_head (cfg : Config) (props : Properties) (fs : FileSys) (stream : Stream)
    (uri : List Nat) (requestHeaders responseHeaders : Properties) : Option Outcome :=
  do_get_or_head cfg props fs stream uri requestHeaders responseHeaders false

/-- The status line and header block a handler sends on success. -/
def replyStatus (cfg : Config) (fs : FileSys) (stream : Stream) (status : Int)
    (statusMsg : List Nat) (responseHeaders : Properties) : Outcome :=
  ⟨fs, sendResponseHeaders (sendResponseStatus cfg stream status statusMsg) responseHeaders,
    responseHeaders⟩

/-- The function `do_delete`. -/
def do_delete (cfg : Config) (fs : FileSys) (stream : Stream) (uri : List Nat)
    (_requestHeaders responseHeaders : Properties) : Option Outcome :=
  let filePath := resolveUri cfg uri
  match stat fs filePath with
  | none => replyError cfg fs stream 404 (bytes "Not Found") responseHeaders
  | some sb =>
    if sb.st_mode = .reg then
      match unlink fs filePath with
      | some fs1 => some (replyStatus cfg fs1 stream 200 (bytes "OK") responseHeaders)
      | none => replyError cfg fs stream 405 (bytes "Method Not Allowed") responseHeaders
    else if sb.st_mode = .dir ∧ strendswith filePath [47] = true then
      match rmdir fs filePath with
      | some fs1 => some (replyStatus cfg fs1 stream 200 (bytes "OK") responseHeaders)
      | none => replyError cfg fs stream 405 (bytes "Method Not Allowed") responseHeaders
    else some ⟨fs, stream, responseHeaders⟩

/-- The function `isdigit`. -/
def isdigit (c : Nat) : Bool := 48 ≤ c && c ≤ 57

/-- The function `atoi` as `(int) strtol(s, NULL, 10)`: white space, an optional
sign, the decimal digits; the `long` value saturates and is then narrowed. -/
def atoi (s : List Nat) : Int :=
  let s1 := s.dropWhile isspace
  let neg := s1.head? = some 45
  let s2 := if s1.head? = some 45 ∨ s1.head? = some 43 then s1.drop 1 else s1
  let v : Nat := (s2.takeWhile isdigit).foldl (fun a d => 10 * a + (d - 48)) 0
  let l : Int :=
    if neg then (if v < 9223372036854775808 then -(v : Int) else -9223372036854775808)
    else (if v < 9223372036854775808 then (v : Int) else 9223372036854775807)
  toInt32 l

/-- The block `if (getPath(filePath, pathOfFile) != NULL) mkdirs(pathOfFile, 0777)`
of `do_put` and `do_post`: the file system once the intermediate directories
are made. -/
def mkdirsFor (fs : FileSys) (filePath : List Nat) : FileSys :=
  match getPath filePath with
  | some pathOfFile => (mkdirs fs pathOfFile).1
  | none => fs

/-- The function `do_put`. -/
def do_put (cfg : Config) (fs : FileSys) (stream : Stream) (uri : List Nat)
    (requestHeaders responseHeaders : Properties) : Option Outcome :=
  let filePath := resolveUri cfg uri
  let created := (stat fs filePath).isNone
  let fs1 := mkdirsFor fs filePath
  match fopen_w fs1 filePath with
  | none => replyError cfg fs1 stream 405 (bytes "Method Not Allowed") responseHeaders
  | some fs2 =>
    let putStream : Stream := ⟨[], false, [], none⟩
    match (match findProperty requestHeaders 0 (bytes "Content-Length") with
           | none =>
             (match sendErrorResponse cfg stream 411 (bytes "Length Required") responseHeaders with
              | some (o, h) => some (o, putStream, h)
              | none => none)
           | some (_, buf) =>
             (match copyFileStreamBytes cfg stream putStream (atoi buf) with
              | some (s1, p1, _) => some (s1, p1, responseHeaders)
              | none => none)) with
    | none => none
    | some (s1, p1, h) =>
      let fs3 := fclose_w fs2 filePath p1
      if created then some (replyStatus cfg fs3 s1 201 (bytes "Created") h)
      else some (replyStatus cfg fs3 s1 200 (bytes "OK") h)

/-- The function `do_post`. -/
def do_post (cfg : Config) (fs : FileSys) (stream : Stream) (uri : List Nat)
    (requestHeaders responseHeaders : Properties) : Option Outcome :=
  let filePath := resolveUri cfg uri
  let fs1 := mkdirsFor fs filePath
  match fopen_w fs1 filePath with
  | none => replyError cfg fs1 stream 405 (bytes "Method Not Allowed") responseHeaders
  | some fs2 =>
    let postStream : Stream := ⟨[], false, [], none⟩
    match (match findProperty requestHeaders 0 (bytes "Content-Length") with
           | none =>
             (match sendErrorResponse cfg stream 411 (bytes "Length Required") responseHeaders with
              | some (o, h) => some (o, postStream, h)
              | none => none)
           | some (_, buf) =>
             (match copyFileStreamBytes cfg stream postStream (atoi buf) with
              | some (s1, p1, _) => some (s1, p1, responseHeaders)
              | none => none)) with
    | none => none
    | some (s1, p1, h) =>
      some (replyStatus cfg (fclose_w fs2 filePath p1) s1 200 (bytes "OK") h)

/-! ## Request pipeline (http_request.c, http_util.c) -/

/-- Modelled from the spec: `trim_newline`, whose code is not among the sources
("strip newline"): the line without its trailing carriage returns and line feeds. -/
def trim_newline (s : List Nat) : List Nat := s.rdropWhile (fun c => c == 10 || c == 13)

/-- One conversion `%s` of `sscanf`: white space is skipped, then the run of
characters up to the next white space is stored; `none` at the end of the input. -/
def scanString (s : List Nat) : Option (List Nat × List Nat) :=
  match s.dropWhile isspace with
  | [] => none
  | c :: cs =>
    some ((c :: cs).takeWhile (fun x => !isspace x), (c :: cs).dropWhile (fun x => !isspace x))

/-- The strings `k` successive `%s` conversions store. -/
def scanStrings : Nat → List Nat → List (List Nat)
  | 0, _ => []
  | k + 1, s =>
    match scanString s with
    | none => []
    | some (t, rest) => t :: scanStrings k rest

/-- The call `sscanf(request, "%s %s %s", method, encUri, version)`: the return
value (`EOF` is -1) and the strings stored. -/
def sscanf_3s (request : List Nat) : Int × List (List Nat) :=
  let stored := scanStrings 3 request
  (if stored = [] then -1 else (stored.length : Int), stored)

/-- The function `strpbrk`: index of the first character that is in `accept`. -/
def strpbrk (s accept : List Nat) : Option Nat := s.findIdx? (fun c => accept.contains c)

/-- The function `strcasecmp`: the difference at the first position where the
lower-cased strings differ, 0 if there is none. -/
def strcasecmp : List Nat → List Nat → Int
  | [], [] => 0
  | [], b :: _ => -(tolower b : Int)
  | a :: _, [] => (tolower a : Int)
  | a :: as, b :: bs =>
    if tolower a = tolower b then strcasecmp as bs else (tolower a : Int) - (tolower b : Int)

/-- The loop of `readRequestHeaders`, one line per unit of fuel; `none` when the
fuel runs out. -/
def readHeadersLoop (size : Nat) : Nat → Stream → Properties → Option (Stream × Properties)
  | 0, _, _ => none
  | fuel + 1, istream, requestHeaders =>
    match fgets size istream with
    | (none, s1) => some (s1, requestHeaders)
    | (some buf, s1) =>
      let line := trim_newline (cstr buf)
      if line = [] then some (s1, requestHeaders)
      else
        match line.indexOf? 58 with
        | some i =>
          match putProperty requestHeaders (line.take i)
              ((line.drop (i + 1)).dropWhile (fun c => c == 32)) with
          | (h1, true) => readHeadersLoop size fuel s1 h1
          | (h1, false) => some (s1, h1)
        | none => readHeadersLoop size fuel s1 requestHeaders

/-- The function `readRequestHeaders`. Every line read takes at least one byte
of input, so one iteration per byte and one more are enough. -/
def readRequestHeaders (cfg : Config) (istream : Stream) (requestHeaders : Properties) :
    Option (Stream × Properties) :=
  readHeadersLoop cfg.MAXBUF (istream.input.length + 1) istream requestHeaders

/-- The method dispatch of `process_request`. -/
def dispatch (cfg : Config) (props : Properties) (fs : FileSys) (stream : Stream)
    (method uri : List Nat) (requestHeaders responseHeaders : Properties) : Option Outcome :=
  if strcasecmp method (bytes "GET") = 0 then
    do_get cfg props fs stream uri requestHeaders responseHeaders
  else if strcasecmp method (bytes "HEAD") = 0 then
    do_head cfg props fs stream uri requestHeaders responseHeaders
  else if strcasecmp method (bytes "DELETE") = 0 then
    do_delete cfg fs stream uri requestHeaders responseHeaders
  else if strcasecmp method (bytes "PUT") = 0 then
    do_put cfg fs stream uri requestHeaders responseHeaders
  else if strcasecmp method (bytes "POST") = 0 then
    do_post cfg fs stream uri requestHeaders responseHeaders
  else replyError cfg fs stream 501 (bytes "Not Implemented") responseHeaders

/-- What `process_request` leaves behind when it returns: the file system, the
connection, how many header stores were created and how many released, and
whether the connection was flushed and closed. -/
structure Served where
  fs : FileSys
  stream : Stream
  storesCreated : Nat
  storesReleased : Nat
  closed : Bool
  deriving DecidableEq, Repr

/-- The query split of `process_request`: when the escaped URI contains `?` or
`&`, what follows is stored under the name `?` and the URI ends there. -/
def splitQuery (requestHeaders : Properties) (encUri : List Nat) : Properties × List Nat :=
  match strpbrk encUri (bytes "?&") with
  | some i => ((putProperty requestHeaders (bytes "?") (encUri.drop (i + 1))).1, encUri.take i)
  | none => (requestHeaders, encUri)

/-- The response headers `process_request` starts with: `Server` and `Date`. -/
def initialResponseHeaders (cfg : Config) (fs : FileSys) : Properties :=
  (putProperty (putProperty (newProperties cfg.MAX_PROPS) (bytes "Server") cfg.server_name).1
    (bytes "Date") (cfg.milliTimeToRFC_1123_Date_Time fs.clock)).1

/-- The teardown of `process_request`: both header stores are deleted and the
connection is flushed and closed. -/
def teardown (out : Outcome) : Served := ⟨out.fs, out.stream, 2, 2, true⟩

/-- The part of `process_request` after the request line was parsed: the
request headers, the query split, the URI decoding, the dispatch and the
teardown. There is no result (`none`) when a loop does not end or `unescapeUri`
has undefined behaviour. -/
def process_request_rest (cfg : Config) (props : Properties) (fs : FileSys) (s1 : Stream)
    (responseHeaders : Properties) (method encUri : List Nat) : Option Served :=
  match readRequestHeaders cfg s1 (newProperties cfg.MAX_PROPS) with
  | none => none
  | some (s2, rq) =>
    match unescapeUri (splitQuery rq encUri).2 with
    | .undefinedBehaviour => none
    | .null =>
      (sendErrorResponse cfg s2 400 (bytes "Bad Request") responseHeaders).map
        (fun r => ⟨fs, r.1, 2, 0, false⟩)
    | .uri ubuf =>
      (dispatch cfg props fs s2 method (cstr ubuf) (splitQuery rq encUri).1 responseHeaders).map
        teardown

/-- The function `process_request` on an opened connection stream; `time` reads
the clock of the file system state. When the request line cannot be read the
function returns at once; after a 400 response it returns without the teardown. -/
def process_request (cfg : Config) (props : Properties) (fs : FileSys) (stream : Stream) :
    Option Served :=
  match fgets cfg.MAXBUF stream with
  | (none, s1) => some ⟨fs, s1, 0, 0, false⟩
  | (some buf, s1) =>
    let scanned := sscanf_3s (trim_newline (cstr buf))
    if scanned.1 ≠ 3 then
      (sendErrorResponse cfg s1 400 (bytes "Bad Request") (initialResponseHeaders cfg fs)).map
        (fun r => ⟨fs, r.1, 1, 0, false⟩)
    else
      process_request_rest cfg props fs s1 (initialResponseHeaders cfg fs)
        (scanned.2.getD 0 []) (scanned.2.getD 1 [])

/-! ## Request line tokens (stated from the specification) -/

/-- The white-space delimited tokens of a line: `cur` is the token being read,
last character first. -/
def tokensFrom : List Nat → List Nat → List (List Nat)
  | cur, [] => if cur = [] then [] else [cur.reverse]
  | cur, c :: cs =>
    if isspace c = true then
      (if cur = [] then tokensFrom [] cs else cur.reverse :: tokensFrom [] cs)
    else tokensFrom (c :: cur) cs

/-- The white-space delimited tokens of a line. -/
def tokens (line : List Nat) : List (List Nat) := tokensFrom [] line

/-! ## Locations denoted by paths (stated from the specification) -/

/-- The segments of a path: the pieces between its `/` characters. -/
def splitSlash : List Nat → List (List Nat)
  | [] => [[]]
  | c :: cs =>
    if c = 47 then [] :: splitSlash cs
    else
      match splitSlash cs with
      | [] => [[c]]
      | seg :: segs => (c :: seg) :: segs

/-- Resolving `.` and `..` segments: `stack` holds the directories entered so
far, innermost first; an empty segment and `.` stay, `..` leaves the innermost
directory (and stays at the root), any other segment enters a directory. -/
def resolveDots : List (List Nat) → List (List Nat) → List (List Nat)
  | stack, [] => stack
  | stack, seg :: segs =>
    if seg = [] ∨ seg = [46] then resolveDots stack segs
    else if seg = [46, 46] then resolveDots stack.tail segs
    else resolveDots (seg :: stack) segs

/-- The location a path denotes: its directory names from the root down, once
the `.` and `..` segments are resolved. -/
def location (path : List Nat) : List (List Nat) := (resolveDots [] (splitSlash path)).reverse

/-- Whether the segments, followed from depth `depth`, never climb above the
point they start from. -/
def staysBelow : Nat → List (List Nat) → Bool
  | _, [] => true
  | depth, seg :: segs =>
    if seg = [] ∨ seg = [46] then staysBelow depth segs
    else if seg = [46, 46] then (depth != 0 && staysBelow (depth - 1) segs)
    else staysBelow (depth + 1) segs

/-- A location is beneath a directory when the directory's location is an
initial part of it. -/
def beneath (dir path : List Nat) : Prop := ∃ below, location path = location dir ++ below

/-- One file system extends another: same locks, same clock, every node kept. -/
def FileSys.Extends (fs fs2 : FileSys) : Prop :=
  fs2.locked = fs.locked ∧ fs2.clock = fs.clock ∧
    ∀ k n, fs.nodes.lookup k = some n → fs2.nodes.lookup k = some n

/-! ## Concrete inputs used by the examples below -/

/-- A configuration: content base `/www`, protocol `HTTP/1.0`, buffers of 64
bytes, header stores of 10 entries, times printed as decimal seconds, and a
listing generator that fails. -/
def demoConfig : Config :=
  ⟨bytes "/www", bytes "srv", bytes "HTTP/1.0", 64, by decide, 10, fmt_lu, fun _ _ _ => none⟩

/-- A connection with the given bytes to read and nothing written yet. -/
def demoConn (s : String) : Stream := ⟨bytes s, false, [], none⟩

/-- A file system with one regular file of 2^31 bytes below the content base. -/
def bigFileSys : FileSys :=
  ⟨[(bytes "/www", .dir 1), (bytes "/www/big", .reg (List.replicate 2147483648 65) 5)], [], 9⟩

/-- A file system with a file, a directory holding a file, and an empty directory. -/
def demoFileSys : FileSys :=
  ⟨[(bytes "/www", .dir 1), (bytes "/www/a.txt", .reg (bytes "0123456789") 2),
    (bytes "/www/d", .dir 3), (bytes "/www/d/x", .reg [] 4), (bytes "/www/e", .dir 3)], [], 100⟩

/-- A file system whose one file is locked: `stat` answers for it, `fopen` does not
open it. -/
def lockedFileSys : FileSys :=
  ⟨[(bytes "/www", .dir 1), (bytes "/www/s.txt", .reg (bytes "secret") 2)], [bytes "/www/s.txt"], 9⟩

/-- A media type table with one entry. -/
def demoTypes : Properties := ⟨10, [(bytes "txt", bytes "text/plain")]⟩

/-- The bytes of the resource a GET or HEAD request addresses: the content of a
regular file that can be opened, or the listing generated for a directory
addressed with a trailing `/`; `none` when there is no such resource. -/
def servedResource (cfg : Config) (fs : FileSys) (uri : List Nat) : Option (List Nat) :=
  match stat fs (resolveUri cfg uri) with
  | none => none
  | some sb =>
    if sb.st_mode = .dir ∧ strendswith (resolveUri cfg uri) [47] = true then
      (cfg.get_dir_listings fs uri (resolveUri cfg uri)).map (fun l => l.1)
    else if sb.st_mode = .reg then
      (fopen_r fs (resolveUri cfg uri)).map (fun s => s.input)
    else none

/-! ## Loading the media type table (media_util.c) -/

/-- The lines successive calls of `getline` return: each line keeps its newline;
only the last one may lack it. -/
def getlines : List Nat → List (List Nat)
  | [] => []
  | c :: cs =>
    if c = 10 then [c] :: getlines cs
    else
      match getlines cs with
      | [] => [[c]]
      | l :: ls => (c :: l) :: ls

/-- The tokens `strtok(line, " ")` and the following calls `strtok(NULL, " ")`
return: the runs of characters other than the space; `cur` is the token being
read, last character first. -/
def strtokFrom : List Nat → List Nat → List (List Nat)
  | cur, [] => if cur = [] then [] else [cur.reverse]
  | cur, c :: cs =>
    if c = 32 then
      (if cur = [] then strtokFrom [] cs else cur.reverse :: strtokFrom [] cs)
    else strtokFrom (c :: cur) cs

/-- The inner loop of `readMediaTypes`: every further token of the line is put
into the table as a name with the line's first token as its value, and counted. -/
def putExtensions (type : List Nat) : List (List Nat) → Properties → Int → Properties × Int
  | [], props, nprops => (props, nprops)
  | token :: rest, props, nprops =>
    putExtensions type rest (putProperty props token type).1 (nprops + 1)

/-- The outer loop of `readMediaTypes` over the lines of the file. A line without
any token makes `strtok` return `NULL`, which the code hands to `strcmp`: there
is no result then. -/
def readMediaLines : List (List Nat) → Properties → Int → Option (Properties × Int)
  | [], props, nprops => some (props, nprops)
  | line :: rest, props, nprops =>
    match strtokFrom [] (cstr line) with
    | [] => none
    | type :: tokens =>
      if type = bytes "#" then readMediaLines rest props nprops
      else
        readMediaLines rest (putExtensions type tokens props nprops).1
          (putExtensions type tokens props nprops).2

/-- The function `readMediaTypes`: the global table afterwards (`none` is the
null pointer) and the return value. When the file cannot be opened the table
stays as it was and the result is 0. -/
def readMediaTypes (cfg : Config) (fs : FileSys) (filename : List Nat)
    (props : Option Properties) : Option (Option Properties × Int) :=
  match fopen_r fs filename with
  | none => some (props, 0)
  | some typeStream =>
    match readMediaLines (getlines typeStream.input) (newProperties cfg.MAX_PROPS) 0 with
    | some (loaded, nprops) => some (some loaded, nprops)
    | none => none

/-! ## Directory listing rows (http_util.c) -/

/-- The first loop of `tostring`: the number of times `n` can be divided by 10
before it is 0, one division per unit of fuel. -/
def tostringLen : Nat → Int → Option Nat
  | 0, _ => none
  | fuel + 1, n => if n ≠ 0 then (tostringLen fuel (n.tdiv 10)).map (fun len => len + 1) else some 0

/-- The second loop of `tostring`: `len` characters `rem + '0'`, stored from the
right. -/
def tostringDigits : Nat → Int → List Nat
  | 0, _ => []
  | len + 1, num => tostringDigits len (num.tdiv 10) ++ [toUChar (num.tmod 10 + 48)]

/-- The function `tostring`: the string left in `str`. The first loop ends after
at most as many divisions as the absolute value of `num`. -/
def tostring (num : Int) : Option (List Nat) :=
  (tostringLen (num.natAbs + 1) num).map (fun len => tostringDigits len num)

/-- A call `fprintf(fname, htmlData)` with the text as format and no further
argument: `%%` prints `%`, any other conversion has nothing to convert and the
call has no defined result. -/
def printfFormat : List Nat → Option (List Nat)
  | [] => some []
  | c :: cs =>
    if c = 37 then
      match cs with
      | d :: ds => if d = 37 then (printfFormat ds).map (fun t => 37 :: t) else none
      | [] => none
    else (printfFormat cs).map (fun t => c :: t)

/-- The test `S_ISDIR(mode)`. -/
def S_ISDIR (mode : Nat) : Bool := mode &&& 61440 == 16384

/-- The test `S_ISLNK(mode)`. -/
def S_ISLNK (mode : Nat) : Bool := mode &&& 61440 == 40960

/-- The text `makeHtmlEntry` builds in `htmlData`; `size` is narrowed to the
`int` parameter of `tostring`. The texts are taken to fit their buffers of
`MAXBSIZE` characters. -/
def htmlEntry (name mtime : List Nat) (size : Int) (mode : Nat) : Option (List Nat) :=
  match tostring (toInt32 size) with
  | none => none
  | some sizeStr =>
    let fileName := if name = bytes ".." then bytes "Parent Directory" else name
    let fileLink :=
      if name = bytes ".." then bytes "../"
      else if S_ISDIR mode = true then name ++ bytes "/" else name
    let modeStr :=
      if S_ISDIR mode = true then bytes "Directory"
      else if S_ISLNK mode = true then bytes "Link" else bytes "File"
    some (bytes "<tr>\n    <td></td>\n    <td><a href=\"" ++ fileLink ++ bytes "\">" ++ fileName ++
      bytes "</a></td>\n    <td align=\"right\">" ++ mtime ++
      bytes "</td>\n    <td align=\"right\">" ++ sizeStr ++
      bytes "</td>\n    <td>" ++ modeStr ++ bytes "</td>\n    <td></td>\n  </tr>")

/-- The function `makeHtmlEntry`: the listing stream afterwards. -/
def makeHtmlEntry (fname : Stream) (name mtime : List Nat) (size : Int) (mode : Nat) :
    Option Stream :=
  match htmlEntry name mtime size mode with
  | none => none
  | some htmlData =>
    match printfFormat htmlData with
    | none => none
    | some text => some (fprintf fname text)

/-- The row `makeHtmlEntry` is meant to write for an entry, with the given text in
the size cell. -/
def htmlRow (link name mtime sizeCell modeStr : List Nat) : List Nat :=
  bytes "<tr>\n    <td></td>\n    <td><a href=\"" ++ link ++ bytes "\">" ++ name ++
    bytes "</a></td>\n    <td align=\"right\">" ++ mtime ++
    bytes "</td>\n    <td align=\"right\">" ++ sizeCell ++
    bytes "</td>\n    <td>" ++ modeStr ++ bytes "</td>\n    <td></td>\n  </tr>"

/-- A file system holding a media type table of one line. -/
def mimeFileSys : FileSys :=
  ⟨[(bytes "/etc/mime.types", .reg (bytes "text/html html htm\n") 1)], [], 9⟩

/-! ## Wire format of a header block -/

/-- The header lines of a response as the wire format has them: for each entry,
in order, the name, a colon and a space, the value, and `CRLF`. -/
def headerBlock : List (List Nat × List Nat) → List Nat
  | [] => []
  | (name, val) :: rest => name ++ [58, 32] ++ val ++ CRLF ++ headerBlock rest

/-! ## Header lines on the wire -/

/-- The name of a header line `Name: Value`: the text before the line's first
colon. -/
def headerName (line : List Nat) : List Nat := line.takeWhile (fun c => c != 58)

/-- The value of a header line `Name: Value`: the text after the line's first
colon, without its leading spaces. -/
def headerValue (line : List Nat) : List Nat :=
  ((line.dropWhile (fun c => c != 58)).drop 1).dropWhile (fun c => c == 32)

/-- The pairs a block of header lines stands for: one per line with a colon, in
the order of the lines; a line without a colon stands for nothing. -/
def headerPairs : List (List Nat) → List (List Nat × List Nat)
  | [] => []
  | line :: more =>
    if 58 ∈ line then (headerName line, headerValue line) :: headerPairs more
    else headerPairs more

/-- The bytes of a request after its request line: every header line with its
`CRLF`, the blank line, and the bytes that follow it. -/
def headerWire : List (List Nat) → List Nat → List Nat
  | [], rest => CRLF ++ rest
  | line :: more, rest => line ++ CRLF ++ headerWire more rest

/-- The text of a header line: not empty, and free of NUL, line feed and carriage
return. -/
def isHeaderLine (line : List Nat) : Bool :=
  !line.isEmpty && line.all (fun c => c != 0 && c != 10 && c != 13)

/-- A header line of 82 characters, longer than the buffer of `demoConfig`. -/
def longAccept : List Nat :=
  bytes "Accept: text/html,application/xhtml+xml,application/xml;q=0.9,image/webp,*/*;q=0.8"

/-! ## Theorems -/

theorem hexval_hexChar (u : Bool) (d : Nat) (h : d < 16) : hexval (hexChar u d) = some d := by
  interval_cases d <;> cases u <;> decide

theorem hexChar_facts (u : Bool) (d : Nat) (h : d < 16) :
    isspace (hexChar u d) = false ∧ hexChar u d ≠ 45 ∧ hexChar u d ≠ 43 ∧
      hexChar u d ≠ 120 ∧ hexChar u d ≠ 88 := by
  interval_cases d <;> cases u <;> decide

theorem sscanf_pct_02x_escape (hi lo : Bool) (b : Nat) (hb : b < 256) (rest : List Nat) :
    sscanf_pct_02x (37 :: hexChar hi (b / 16) :: hexChar lo (b % 16) :: rest)
      = .value (b : Int) := by
  have h1 : b / 16 < 16 := by omega
  have h2 : b % 16 < 16 := by omega
  obtain ⟨s1, m1, p1, _, _⟩ := hexChar_facts hi (b / 16) h1
  obtain ⟨_, _, _, x2, y2⟩ := hexChar_facts lo (b % 16) h2
  have hd : hexDigits 2 (hexChar hi (b / 16) :: hexChar lo (b % 16) :: rest)
      = [b / 16, b % 16] := by
    simp [hexDigits, hexval_hexChar, h1, h2]
  have hv : hexValue [b / 16, b % 16] = b := by
    simp [hexValue]; omega
  have hsp : isspace 37 = false := by decide
  simp [sscanf_pct_02x, scanHex, scanHexBody, List.dropWhile, hsp, s1, m1, p1, x2, y2, hd, hv]

theorem toUChar_natCast (b : Nat) (hb : b < 256) : toUChar (b : Int) = b := by
  unfold toUChar
  omega

/-- Claim C1. `unescapeUri` inverts percent-encoding: for a byte string without
NUL, encoded by writing some bytes (every `%` among them) as `%XX` in either
letter case, decoding succeeds and returns the original bytes. -/
theorem unescapeUri_escapeUri (s : List (Nat × Esc))
    (h : ∀ p ∈ s, 0 < p.1 ∧ p.1 < 256 ∧ (p.1 = 37 → p.2 ≠ Esc.raw)) :
    unescapeUri (escapeUri s) = .uri (s.map Prod.fst) := by
  induction s with
  | nil => rfl
  | cons p rest ih =>
    obtain ⟨b, e⟩ := p
    have hp := h (b, e) (List.mem_cons_self _ _)
    have ih2 := ih (fun q hq => h q (List.mem_cons_of_mem _ hq))
    cases e with
    | raw =>
      have hne : b ≠ 37 := fun hb => hp.2.2 hb rfl
      simp [escapeUri, escapeByte, unescapeUri, hne, ih2, Unescaped.push]
    | pct hi lo =>
      simp [escapeUri, escapeByte, unescapeUri, sscanf_pct_02x_escape hi lo b hp.2.1, ih2,
        Unescaped.push, toUChar_natCast b hp.2.1]

/-- Witness for claim C1 on the string `%/A` with the `%` written `%25` and `A` written `%41`. -/
theorem unescapeUri_escapeUri_witness :
    unescapeUri (escapeUri [(37, Esc.pct true true), (47, Esc.raw), (65, Esc.pct false true)])
      = .uri [37, 47, 65] :=
  unescapeUri_escapeUri [(37, Esc.pct true true), (47, Esc.raw), (65, Esc.pct false true)]
    (by decide)

/-- Claim C2, failing input. On `%4g` the code does not fail: `sscanf` converts
the single digit `4`, returns 1, and the `g` is skipped. On a `%` at the end of
the input `sscanf` returns `EOF`, which is not 0, so the code does not return
`NULL` either. -/
theorem unescapeUri_pct_4g :
    unescapeUri (bytes "%4g") = .uri [4] ∧ unescapeUri (bytes "/a%4g") = .uri (bytes "/a" ++ [4]) ∧
      unescapeUri (bytes "%") = .undefinedBehaviour := by decide

/-! ## `copyFileStreamBytes`: termination and what is copied -/

theorem copyLoop_eof (maxbuf fuel : Nat) (i o : Stream) (n : Int) (h : i.eof = true) :
    copyLoop maxbuf (fuel + 1) i o n = some (i, o, 0) := by
  simp [copyLoop, h]

theorem copyLoop_nonpos (maxbuf fuel : Nat) (i o : Stream) (n : Int) (h : n ≤ 0) :
    copyLoop maxbuf (fuel + 1) i o n = some (i, o, 0) := by
  have : ¬ (0 < n) := by omega
  simp [copyLoop, this]

theorem fwrite_output (o : Stream) (buf : List Nat) :
    (fwrite o buf).2.output = o.output ++ buf.take (fwrite o buf).1 := by
  cases hr : o.room with
  | none => simp [fwrite, hr]
  | some r =>
    simp only [fwrite, hr, List.length_take]
    congr 1
    rw [List.take_eq_take]
    simp

theorem copyLoop_isSome (maxbuf : Nat) (hm : 0 < maxbuf) :
    ∀ (fuel : Nat) (i o : Stream) (n : Int),
      (n.toNat + 1 ≤ fuel ∨ (i.eof = true ∧ 1 ≤ fuel)) →
      (copyLoop maxbuf fuel i o n).isSome = true := by
  intro fuel
  induction fuel with
  | zero => intro i o n h; omega
  | succ fuel ih =>
    intro i o n h
    by_cases hc : 0 < n ∧ i.eof = false
    · have hfuel : n.toNat + 1 ≤ fuel + 1 := by
        rcases h with h | h
        · exact h
        · simp [h.1] at hc
      have hk : 0 < (if n < (maxbuf : Int) then n else (maxbuf : Int)).toNat := by
        split <;> omega
      rw [copyLoop, if_pos hc]
      simp only []
      generalize (if n < (maxbuf : Int) then n else (maxbuf : Int)).toNat = k at hk ⊢
      by_cases h1 : 0 < (fread i k).1.length
      · rw [if_pos h1]
        by_cases h2 : (fwrite o (fread i k).1).1 < (fread i k).1.length
        · rw [if_pos h2]; rfl
        · rw [if_neg h2]
          apply ih
          left
          omega
      · rw [if_neg h1]
        apply ih
        right
        constructor
        · simp only [fread, List.length_take] at h1 ⊢
          have : i.input.length = 0 := by omega
          simp [this, hk]
        · omega
    · rw [copyLoop, if_neg hc]
      rfl

theorem copyFileStreamBytes_isSome (cfg : Config) (i o : Stream) (n : Int) :
    (copyFileStreamBytes cfg i o n).isSome = true :=
  copyLoop_isSome cfg.MAXBUF cfg.MAXBUF_pos _ i o n (Or.inl (by omega))

/-- The output stream only grows, by bytes taken from the front of the input. -/
theorem copyLoop_output (maxbuf : Nat) :
    ∀ (fuel : Nat) (i o i2 o2 : Stream) (n ret : Int),
      copyLoop maxbuf fuel i o n = some (i2, o2, ret) →
      ∃ body rest, o2.output = o.output ++ body ∧ i.input = body ++ rest := by
  intro fuel
  induction fuel with
  | zero => intro i o i2 o2 n ret h; simp [copyLoop] at h
  | succ fuel ih =>
    intro i o i2 o2 n ret h
    rw [copyLoop] at h
    by_cases hc : 0 < n ∧ i.eof = false
    · rw [if_pos hc] at h
      simp only [] at h
      generalize (if n < (maxbuf : Int) then n else (maxbuf : Int)).toNat = k at h
      by_cases h1 : 0 < (fread i k).1.length
      · rw [if_pos h1] at h
        by_cases h2 : (fwrite o (fread i k).1).1 < (fread i k).1.length
        · rw [if_pos h2] at h
          simp only [Option.some.injEq, Prod.mk.injEq] at h
          obtain ⟨_, h3, _⟩ := h
          subst h3
          refine ⟨(i.input.take k).take (fwrite o (i.input.take k)).1,
            (i.input.take k).drop (fwrite o (i.input.take k)).1 ++ i.input.drop k, ?_, ?_⟩
          · rw [fwrite_output]; rfl
          · rw [← List.append_assoc, List.take_append_drop, List.take_append_drop]
        · rw [if_neg h2] at h
          obtain ⟨body, rest, hb, hr⟩ := ih _ _ _ _ _ _ h
          refine ⟨i.input.take k ++ body, rest, ?_, ?_⟩
          · rw [hb, fwrite_output, List.append_assoc]
            congr 2
            apply List.take_of_length_le
            have h2b : ¬ (fwrite o (i.input.take k)).1 < (i.input.take k).length := h2
            have h3 : (fread i k).1 = i.input.take k := rfl
            rw [h3]
            omega
          · simp only [fread] at hr
            rw [List.append_assoc, ← hr, List.take_append_drop]
      · rw [if_neg h1] at h
        obtain ⟨body, rest, hb, hr⟩ := ih _ _ _ _ _ _ h
        refine ⟨body, rest, hb, ?_⟩
        simp only [fread, List.length_take] at h1 hr
        have h0 : i.input.take k = [] := by
          apply List.eq_nil_of_length_eq_zero
          simp only [List.length_take]
          omega
        have := List.take_append_drop k i.input
        rw [h0] at this
        rw [← this]
        simpa using hr
    · rw [if_neg hc] at h
      simp only [Option.some.injEq, Prod.mk.injEq] at h
      obtain ⟨_, h2, _⟩ := h
      subst h2
      exact ⟨[], i.input, by simp, by simp⟩

/-- With an output that accepts every write and an input not yet at its end,
the loop copies the first `n` bytes, in order, and leaves the rest unread. -/
theorem copyLoop_exact (maxbuf : Nat) (hm : 0 < maxbuf) :
    ∀ (fuel : Nat) (i o : Stream) (n : Nat),
      o.room = none → i.eof = false → n + 1 ≤ fuel →
      ∃ i2, copyLoop maxbuf fuel i o (n : Int)
          = some (i2, ⟨o.input, o.eof, o.output ++ i.input.take n, none⟩, 0)
        ∧ i2.input = i.input.drop n := by
  intro fuel
  induction fuel with
  | zero => intro i o n _ _ h; omega
  | succ fuel ih =>
    intro i o n hroom heof hfuel
    by_cases hn : n = 0
    · subst hn
      refine ⟨i, ?_, by simp⟩
      rw [copyLoop_nonpos _ _ _ _ _ (by simp)]
      cases o
      simp_all
    · have hc : 0 < (n : Int) ∧ i.eof = false := ⟨by omega, heof⟩
      have hk : (if (n : Int) < (maxbuf : Int) then (n : Int) else (maxbuf : Int)).toNat
          = min n maxbuf := by
        split <;> omega
      rw [copyLoop, if_pos hc]
      simp only [hk]
      by_cases hlen : i.input.length < min n maxbuf
      · -- the input ends inside this chunk
        have htake : i.input.take (min n maxbuf) = i.input := List.take_of_length_le (by omega)
        have htaken : i.input.take n = i.input := List.take_of_length_le (by omega)
        have hdrop : i.input.drop (min n maxbuf) = [] := List.drop_of_length_le (by omega)
        have hdropn : i.input.drop n = [] := List.drop_of_length_le (by omega)
        have heof2 : (fread i (min n maxbuf)).2.eof = true := by simp [fread, hlen]
        obtain ⟨fuel2, rfl⟩ : ∃ f, fuel = f + 1 := ⟨fuel - 1, by omega⟩
        by_cases h0 : i.input = []
        · refine ⟨(fread i (min n maxbuf)).2, ?_, by simp [fread, h0]⟩
          simp only [fread, h0, List.take_nil, List.length_nil, lt_self_iff_false, if_false]
          rw [copyLoop_eof _ _ _ _ _ (by simpa [fread, h0] using heof2)]
          cases o
          simp_all
        · have hpos : 0 < (fread i (min n maxbuf)).1.length := by
            simp only [fread, htake]
            exact List.length_pos.mpr h0
          refine ⟨(fread i (min n maxbuf)).2, ?_, by simp [fread, hdrop, hdropn]⟩
          rw [if_pos hpos]
          have hw : fwrite o (fread i (min n maxbuf)).1
              = ((fread i (min n maxbuf)).1.length,
                  ⟨o.input, o.eof, o.output ++ i.input, none⟩) := by
            cases o
            simp_all [fwrite, fread]
          simp only [hw, lt_self_iff_false, if_false]
          rw [copyLoop_eof _ _ _ _ _ heof2, htaken]
      · -- a full chunk is read
        have hlen2 : (i.input.take (min n maxbuf)).length = min n maxbuf := by
          simp only [List.length_take]; omega
        have hpos : 0 < (fread i (min n maxbuf)).1.length := by
          simp only [fread, hlen2]; omega
        have heof2 : (fread i (min n maxbuf)).2.eof = false := by
          simp [fread, heof, hlen]
        have hw : fwrite o (fread i (min n maxbuf)).1
            = ((fread i (min n maxbuf)).1.length,
                ⟨o.input, o.eof, o.output ++ i.input.take (min n maxbuf), none⟩) := by
          cases o
          simp_all [fwrite, fread]
        rw [if_pos hpos]
        simp only [hw, lt_self_iff_false, if_false]
        have hsub : ((n : Int) - ((fread i (min n maxbuf)).1.length : Int))
            = ((n - min n maxbuf : Nat) : Int) := by
          simp only [fread, hlen2]; omega
        rw [hsub]
        obtain ⟨i2, h1, h2⟩ := ih (fread i (min n maxbuf)).2
          ⟨o.input, o.eof, o.output ++ i.input.take (min n maxbuf), none⟩ (n - min n maxbuf)
          rfl heof2 (by omega)
        refine ⟨i2, ?_, ?_⟩
        · rw [h1]
          simp only [fread, List.append_assoc, Option.some.injEq, Prod.mk.injEq, Stream.mk.injEq,
            true_and, and_true, List.append_cancel_left_eq]
          have : n = min n maxbuf + (n - min n maxbuf) := by omega
          conv_rhs => rw [this, List.take_add]
        · rw [h2]
          simp only [fread, List.drop_drop]
          congr 1
          omega

/-! ## GET and HEAD -/

theorem copyFileStreamBytes_nonpos (cfg : Config) (i o : Stream) (n : Int) (h : n ≤ 0) :
    copyFileStreamBytes cfg i o n = some (i, o, 0) := by
  unfold copyFileStreamBytes
  exact copyLoop_nonpos _ _ _ _ _ h

theorem stat_reg (fs : FileSys) (path c : List Nat) (m : Nat)
    (hn : fs.node path = some (.reg c m)) (h0 : path ≠ []) (hl : path.getLast? ≠ some 47) :
    stat fs path = some ⟨.reg, c.length, m⟩ := by
  simp [stat, hn, h0, hl]

/-- When the length converted to `int` is not positive, GET sends no body. -/
theorem do_get_or_head_send_no_body (cfg : Config) (props : Properties) (fs : FileSys)
    (stream : Stream) (filePath : List Nat) (rs : Properties) (c : List Nat) (m : Nat)
    (sb : StatBuf) (h : toInt32 (sb.st_size : Int) ≤ 0)
    (hopen : fs.node filePath = some (.reg c m)) (hlock : filePath ∉ fs.locked) :
    do_get_or_head_send cfg props fs stream filePath rs none sb true
      = do_get_or_head_send cfg props fs stream filePath rs none sb false := by
  simp only [do_get_or_head_send, fopen_r, if_neg hlock, hopen,
    copyFileStreamBytes_nonpos _ _ _ _ h, if_true, if_false, Bool.false_eq_true]

/-- Claim C3, failing input. For a regular file of 2^31 bytes `do_get` announces
`Content-Length: 2147483648` and then sends no body byte at all: the length is
narrowed to `int` on the way into `copyFileStreamBytes`. -/
theorem do_get_two_gib_file_sends_no_body :
    (do_get demoConfig demoTypes bigFileSys (demoConn "") (bytes "/big") ⟨10, []⟩ ⟨10, []⟩).map
        (fun out => out.stream.output)
      = some (bytes ("HTTP/1.0 200 OK \r\nContent-Length: 2147483648\r\nLast-Modified: 5\r\n" ++
          "Content-type: application/octet-stream\r\n\r\n")) := by
  have hnode : bigFileSys.node (resolveUri demoConfig (bytes "/big"))
      = some (.reg (List.replicate 2147483648 65) 5) := rfl
  have hstat := stat_reg bigFileSys _ _ _ hnode (by decide) (by decide)
  rw [List.length_replicate] at hstat
  have hmode : ¬ ((⟨.reg, 2147483648, 5⟩ : StatBuf).st_mode = Mode.dir ∧
      strendswith (resolveUri demoConfig (bytes "/big")) [47] = true) := by decide
  have hreg : ¬ ((⟨.reg, 2147483648, 5⟩ : StatBuf).st_mode ≠ Mode.reg) := by decide
  simp only [do_get, do_get_or_head, hstat, if_neg hmode, if_neg hreg]
  rw [do_get_or_head_send_no_body _ _ _ _ _ _ _ _ _ (by decide) hnode (by decide)]
  rfl

/-! ## Error responses always come back -/

theorem sendErrorResponse_isSome (cfg : Config) (o : Stream) (status : Int) (msg : List Nat)
    (rs : Properties) : ∃ o2 h, sendErrorResponse cfg o status msg rs = some (o2, h) := by
  unfold sendErrorResponse
  simp only []
  generalize hn : toInt32 _ = n
  generalize ho : sendResponseHeaders _ _ = o1
  have h := copyFileStreamBytes_isSome cfg (tmpStringFile (errorBody status msg)) o1 n
  cases hc : copyFileStreamBytes cfg (tmpStringFile (errorBody status msg)) o1 n with
  | none => simp [hc] at h
  | some r => exact ⟨r.2.1, _, rfl⟩

theorem replyError_eq (cfg : Config) (fs : FileSys) (o : Stream) (status : Int) (msg : List Nat)
    (rs : Properties) :
    ∃ o2 h, sendErrorResponse cfg o status msg rs = some (o2, h) ∧
      replyError cfg fs o status msg rs = some ⟨fs, o2, h⟩ := by
  obtain ⟨o2, h, he⟩ := sendErrorResponse_isSome cfg o status msg rs
  exact ⟨o2, h, he, by simp [replyError, he]⟩

/-! ## PUT and POST without `Content-Length` -/

set_option maxRecDepth 100000 in
/-- Claim C5, failing input. A PUT and a POST without `Content-Length`: after the
411 error response the code goes on and writes a second status line (201 or
200) and a second header block; the request body stays unread. -/
theorem put_post_without_length_write_two_responses :
    (do_put demoConfig demoFileSys (demoConn "hello") (bytes "/n.txt") ⟨10, []⟩
        ⟨10, [(bytes "Server", bytes "srv")]⟩).map (fun out => (out.stream.output, out.stream.input))
      = some (bytes ("HTTP/1.0 411 Length Required \r\nServer: srv\r\nContent-Length: 92\r\n" ++
          "Content-type: text/html\r\n\r\n<html><head><title>411 Length Required</title></head>" ++
          "<body>411 Length Required</body></html>" ++
          "HTTP/1.0 201 Created \r\nServer: srv\r\nContent-Length: 92\r\n" ++
          "Content-type: text/html\r\n\r\n"), bytes "hello") ∧
    (do_post demoConfig demoFileSys (demoConn "hello") (bytes "/n.txt") ⟨10, []⟩
        ⟨10, [(bytes "Server", bytes "srv")]⟩).map (fun out => (out.stream.output, out.stream.input))
      = some (bytes ("HTTP/1.0 411 Length Required \r\nServer: srv\r\nContent-Length: 92\r\n" ++
          "Content-type: text/html\r\n\r\n<html><head><title>411 Length Required</title></head>" ++
          "<body>411 Length Required</body></html>" ++
          "HTTP/1.0 200 OK \r\nServer: srv\r\nContent-Length: 92\r\n" ++
          "Content-type: text/html\r\n\r\n"), bytes "hello") := by
  constructor <;> decide

/-! ## DELETE -/

theorem lookup_filter_self (key : List Nat) (l : List (List Nat × Node)) :
    (l.filter (fun e => e.1 != key)).lookup key = none := by
  induction l with
  | nil => rfl
  | cons e rest ih =>
    obtain ⟨k, n⟩ := e
    simp only [List.filter_cons]
    split
    · rename_i hk
      have hne : (key == k) = false := by
        simp only [bne_iff_ne, ne_eq] at hk
        simpa using fun h => hk h.symm
      simp only [List.lookup, hne, ih]
    · exact ih

theorem stat_erase (fs : FileSys) (path : List Nat) : stat (fs.erase (stripSlash path)) path = none := by
  unfold stat
  split
  · rfl
  · have : (fs.erase (stripSlash path)).node path = none := by
      simp only [FileSys.node, FileSys.erase]
      exact lookup_filter_self _ _
    simp [this]

theorem unlink_removes (fs fs1 : FileSys) (path : List Nat) (h : unlink fs path = some fs1) :
    stat fs1 path = none := by
  unfold unlink at h
  split at h
  · simp at h
  · split at h <;> simp at h <;> subst h <;> exact stat_erase fs path

theorem rmdir_removes (fs fs1 : FileSys) (path : List Nat) (h : rmdir fs path = some fs1) :
    stat fs1 path = none := by
  unfold rmdir at h
  split at h
  · simp at h
  · split at h <;> simp at h
    subst h
    exact stat_erase fs path

theorem rmdir_nonempty (fs : FileSys) (path : List Nat)
    (h : fs.hasChild (stripSlash path) = true) : rmdir fs path = none := by
  simp [rmdir, h]

/-- Claim C6. `do_delete` by cases: a path that does not exist is answered with the
404 error response; a regular file, or a directory addressed with a trailing
`/`, is answered with status 200 and headers when `unlink` / `rmdir` succeeds,
and the resource is gone afterwards, and with the 405 error response when the
removal fails, which is what happens to a non-empty directory; in every other
case nothing is written and nothing changes. Error responses leave the file
system as it was. -/
theorem do_delete_cases (cfg : Config) (fs : FileSys) (stream : Stream) (uri : List Nat)
    (rq rs : Properties) :
    (stat fs (resolveUri cfg uri) = none →
      ∃ o h, sendErrorResponse cfg stream 404 (bytes "Not Found") rs = some (o, h) ∧
        do_delete cfg fs stream uri rq rs = some ⟨fs, o, h⟩) ∧
    (∀ sb, stat fs (resolveUri cfg uri) = some sb → sb.st_mode = .reg →
      (∀ fs1, unlink fs (resolveUri cfg uri) = some fs1 →
        do_delete cfg fs stream uri rq rs
          = some ⟨fs1, sendResponseHeaders (sendResponseStatus cfg stream 200 (bytes "OK")) rs, rs⟩ ∧
        stat fs1 (resolveUri cfg uri) = none) ∧
      (unlink fs (resolveUri cfg uri) = none →
        ∃ o h, sendErrorResponse cfg stream 405 (bytes "Method Not Allowed") rs = some (o, h) ∧
          do_delete cfg fs stream uri rq rs = some ⟨fs, o, h⟩)) ∧
    (∀ sb, stat fs (resolveUri cfg uri) = some sb → sb.st_mode = .dir →
      strendswith (resolveUri cfg uri) [47] = true →
      (∀ fs1, rmdir fs (resolveUri cfg uri) = some fs1 →
        do_delete cfg fs stream uri rq rs
          = some ⟨fs1, sendResponseHeaders (sendResponseStatus cfg stream 200 (bytes "OK")) rs, rs⟩ ∧
        stat fs1 (resolveUri cfg uri) = none) ∧
      (rmdir fs (resolveUri cfg uri) = none →
        ∃ o h, sendErrorResponse cfg stream 405 (bytes "Method Not Allowed") rs = some (o, h) ∧
          do_delete cfg fs stream uri rq rs = some ⟨fs, o, h⟩) ∧
      (fs.hasChild (stripSlash (resolveUri cfg uri)) = true →
        rmdir fs (resolveUri cfg uri) = none)) ∧
    (∀ sb, stat fs (resolveUri cfg uri) = some sb → sb.st_mode ≠ .reg →
      ¬ (sb.st_mode = .dir ∧ strendswith (resolveUri cfg uri) [47] = true) →
      do_delete cfg fs stream uri rq rs = some ⟨fs, stream, rs⟩) := by
  refine ⟨?_, ?_, ?_, ?_⟩
  · intro hs
    obtain ⟨o, h, he, hr⟩ := replyError_eq cfg fs stream 404 (bytes "Not Found") rs
    exact ⟨o, h, he, by simp only [do_delete, hs, hr]⟩
  · intro sb hs hreg
    refine ⟨?_, ?_⟩
    · intro fs1 hu
      exact ⟨by simp only [do_delete, hs, hreg, hu, if_true, replyStatus],
        unlink_removes fs fs1 _ hu⟩
    · intro hu
      obtain ⟨o, h, he, hr⟩ := replyError_eq cfg fs stream 405 (bytes "Method Not Allowed") rs
      exact ⟨o, h, he, by simp only [do_delete, hs, hreg, hu, if_true, hr]⟩
  · intro sb hs hdir hend
    have hnreg : ¬ (sb.st_mode = Mode.reg) := by rw [hdir]; decide
    refine ⟨?_, ?_, rmdir_nonempty fs _⟩
    · intro fs1 hu
      exact ⟨by simp only [do_delete, hs, hnreg, hdir, hend, hu, if_false, and_self, if_true,
        replyStatus, reduceCtorEq], rmdir_removes fs fs1 _ hu⟩
    · intro hu
      obtain ⟨o, h, he, hr⟩ := replyError_eq cfg fs stream 405 (bytes "Method Not Allowed") rs
      exact ⟨o, h, he, by simp only [do_delete, hs, hnreg, hdir, hend, hu, if_false, and_self,
        if_true, hr, reduceCtorEq]⟩
  · intro sb hs hnreg hndir
    simp only [do_delete, hs, hnreg, hndir, if_false]

/-- Witness for claim C6: the regular file `/a.txt` is unlinked and answered with 200. -/
theorem do_delete_cases_witness :
    stat demoFileSys (resolveUri demoConfig (bytes "/a.txt")) = some ⟨.reg, 10, 2⟩ ∧
    unlink demoFileSys (resolveUri demoConfig (bytes "/a.txt"))
      = some (demoFileSys.erase (bytes "/www/a.txt")) ∧
    do_delete demoConfig demoFileSys (demoConn "") (bytes "/a.txt") ⟨10, []⟩ ⟨10, []⟩
      = some ⟨demoFileSys.erase (bytes "/www/a.txt"),
          sendResponseHeaders (sendResponseStatus demoConfig (demoConn "") 200 (bytes "OK")) ⟨10, []⟩,
          ⟨10, []⟩⟩ ∧
    stat (demoFileSys.erase (bytes "/www/a.txt")) (resolveUri demoConfig (bytes "/a.txt")) = none :=
  ⟨by decide, by decide,
    ((do_delete_cases demoConfig demoFileSys (demoConn "") (bytes "/a.txt") ⟨10, []⟩ ⟨10, []⟩).2.1
      ⟨.reg, 10, 2⟩ (by decide) rfl).1 (demoFileSys.erase (bytes "/www/a.txt")) (by decide)⟩

/-! ## HEAD is GET without the body -/

theorem toInt32_small (n : Nat) (h : n < 2147483648) : toInt32 (n : Int) = (n : Int) := by
  unfold toInt32
  have h1 : ((n : Int) % 4294967296) = (n : Int) := by omega
  rw [h1]
  simp [h]

theorem fprintf_room (s : Stream) (t : List Nat) (h : s.room = none) : (fprintf s t).room = none := by
  simp [fprintf, fwrite, h]

theorem sendHeaderLines_room (l : List (List Nat × List Nat)) :
    ∀ s : Stream, s.room = none → (sendHeaderLines l s).room = none := by
  induction l with
  | nil => intro s h; exact h
  | cons e rest ih =>
    intro s h
    obtain ⟨n, v⟩ := e
    exact ih _ (fprintf_room _ _ h)

theorem sendResponseHeaders_room (s : Stream) (rs : Properties) (h : s.room = none) :
    (sendResponseHeaders s rs).room = none :=
  fprintf_room _ _ (sendHeaderLines_room _ _ h)

theorem sendResponseStatus_room (cfg : Config) (s : Stream) (c : Int) (m : List Nat)
    (h : s.room = none) : (sendResponseStatus cfg s c m).room = none :=
  fprintf_room _ _ h

/-- Copying from a fresh reader: the call returns, and what it appends to the
output is taken from the front of the content. -/
theorem copy_reader (cfg : Config) (c : List Nat) (o : Stream) (n : Int) :
    ∃ i2 o3 ret, copyFileStreamBytes cfg (Stream.reader c) o n = some (i2, o3, ret) ∧
      ∃ body rest, o3.output = o.output ++ body ∧ c = body ++ rest := by
  have h := copyFileStreamBytes_isSome cfg (Stream.reader c) o n
  cases hc : copyFileStreamBytes cfg (Stream.reader c) o n with
  | none => simp [hc] at h
  | some r =>
    obtain ⟨i2, o3, ret⟩ := r
    exact ⟨i2, o3, ret, rfl, copyLoop_output _ _ _ _ _ _ _ _ hc⟩

/-- Copying a whole content of fewer than 2^31 bytes to an output that accepts
every write appends exactly the content. -/
theorem copy_reader_exact (cfg : Config) (c : List Nat) (o : Stream) (hroom : o.room = none)
    (hlen : c.length < 2147483648) :
    ∃ i2, copyFileStreamBytes cfg (Stream.reader c) o (toInt32 (c.length : Int))
      = some (i2, ⟨o.input, o.eof, o.output ++ c, none⟩, 0) := by
  rw [toInt32_small _ hlen]
  obtain ⟨i2, h1, _⟩ := copyLoop_exact cfg.MAXBUF cfg.MAXBUF_pos ((c.length : Int).toNat + 2)
    (Stream.reader c) o c.length hroom rfl (by omega)
  refine ⟨i2, ?_⟩
  unfold copyFileStreamBytes
  rw [h1]
  simp [Stream.reader]

/-- The second half of `do_get_or_head` for a content stream over `c`: HEAD
sends the status line and the headers, GET sends the same and then bytes from
the front of `c`, all of `c` when the connection accepts every write, the
recorded length is that of `c` and it fits an `int`. -/
theorem do_get_or_head_send_both (cfg : Config) (props : Properties) (fs : FileSys)
    (stream : Stream) (filePath : List Nat) (rs : Properties) (cs : Option Stream)
    (sb : StatBuf) (c : List Nat)
    (hcs : cs = some (Stream.reader c) ∨ (cs = none ∧ fopen_r fs filePath = some (Stream.reader c))) :
    ∃ h3 g,
      do_get_or_head_send cfg props fs stream filePath rs cs sb false
        = some ⟨fs, sendResponseHeaders (sendResponseStatus cfg stream 200 (bytes "OK")) h3, h3⟩ ∧
      do_get_or_head_send cfg props fs stream filePath rs cs sb true = some g ∧
      g.fs = fs ∧ g.responseHeaders = h3 ∧
      ∃ body rest,
        g.stream.output
          = (sendResponseHeaders (sendResponseStatus cfg stream 200 (bytes "OK")) h3).output ++ body ∧
        c = body ++ rest ∧
        (stream.room = none → sb.st_size = c.length → c.length < 2147483648 → body = c) := by
  rcases hcs with rfl | ⟨rfl, h2⟩
  · simp only [do_get_or_head_send, if_true, if_false, Bool.false_eq_true]
    generalize hh3 : (putProperty (putProperty (putProperty rs (bytes "Content-Length")
      (fmt_lu sb.st_size)).1 (bytes "Last-Modified")
      (cfg.milliTimeToRFC_1123_Date_Time sb.st_mtime)).1 (bytes "Content-type")
      (if getMediaType props filePath = bytes "text/directory" then bytes "text/html"
        else getMediaType props filePath)).1 = h3
    obtain ⟨i2, o3, ret, hc, body, rest, hb, hr⟩ := copy_reader cfg c
      (sendResponseHeaders (sendResponseStatus cfg stream 200 (bytes "OK")) h3)
      (toInt32 (sb.st_size : Int))
    refine ⟨h3, ⟨fs, o3, h3⟩, rfl, by rw [hc], rfl, rfl, body, rest, hb, hr, ?_⟩
    intro hroom hsize hlen
    obtain ⟨j2, hex⟩ := copy_reader_exact cfg c
      (sendResponseHeaders (sendResponseStatus cfg stream 200 (bytes "OK")) h3)
      (sendResponseHeaders_room _ _ (sendResponseStatus_room _ _ _ _ hroom)) hlen
    rw [hsize, hex] at hc
    simp only [Option.some.injEq, Prod.mk.injEq] at hc
    obtain ⟨_, ho, _⟩ := hc
    rw [← ho] at hb
    simpa using hb.symm
  · simp only [do_get_or_head_send, h2, if_true, if_false, Bool.false_eq_true]
    generalize hh3 : (putProperty (putProperty (putProperty rs (bytes "Content-Length")
      (fmt_lu sb.st_size)).1 (bytes "Last-Modified")
      (cfg.milliTimeToRFC_1123_Date_Time sb.st_mtime)).1 (bytes "Content-type")
      (if getMediaType props filePath = bytes "text/directory" then bytes "text/html"
        else getMediaType props filePath)).1 = h3
    obtain ⟨i2, o3, ret, hc, body, rest, hb, hr⟩ := copy_reader cfg c
      (sendResponseHeaders (sendResponseStatus cfg stream 200 (bytes "OK")) h3)
      (toInt32 (sb.st_size : Int))
    refine ⟨h3, ⟨fs, o3, h3⟩, rfl, by rw [hc], rfl, rfl, body, rest, hb, hr, ?_⟩
    intro hroom hsize hlen
    obtain ⟨j2, hex⟩ := copy_reader_exact cfg c
      (sendResponseHeaders (sendResponseStatus cfg stream 200 (bytes "OK")) h3)
      (sendResponseHeaders_room _ _ (sendResponseStatus_room _ _ _ _ hroom)) hlen
    rw [hsize, hex] at hc
    simp only [Option.some.injEq, Prod.mk.injEq] at hc
    obtain ⟨_, ho, _⟩ := hc
    rw [← ho] at hb
    simpa using hb.symm

theorem stat_reg_inv (fs : FileSys) (path : List Nat) (sb : StatBuf)
    (h : stat fs path = some sb) (hreg : sb.st_mode = .reg) (hlock : path ∉ fs.locked) :
    ∃ c, fopen_r fs path = some (Stream.reader c) ∧ sb.st_size = c.length := by
  unfold stat at h
  split at h
  · simp at h
  · split at h
    · simp at h
    · simp only [Option.some.injEq] at h
      subst h
      simp at hreg
    · rename_i c m hn
      split at h
      · simp at h
      · simp only [Option.some.injEq] at h
        subst h
        exact ⟨c, by simp [fopen_r, hn, hlock], rfl⟩
    · split at h
      · simp at h
      · simp only [Option.some.injEq] at h
        subst h
        simp at hreg

/-- GET and HEAD of a path that is not locked. `do_head` and `do_get` on the same
inputs both return, leave the same file system and header store, and the bytes
`do_get` writes are the bytes `do_head` writes followed by a body. When the
request is answered with an error (404 or 405) the two write the identical
error response. Otherwise `do_head` writes exactly the status line 200 and the
header block, and the body `do_get` adds is taken from the front of the
resource: the whole resource when the connection accepts every write and the
resource has fewer than 2^31 bytes. For a resource of 2^31 bytes the body is
empty, and for a locked file `do_get` has no result. -/
theorem do_head_is_do_get_without_body (cfg : Config) (props : Properties) (fs : FileSys)
    (stream : Stream) (uri : List Nat) (rq rs : Properties)
    (hread : resolveUri cfg uri ∉ fs.locked) :
    ∃ h g, do_head cfg props fs stream uri rq rs = some h ∧
      do_get cfg props fs stream uri rq rs = some g ∧
      g.fs = h.fs ∧ g.responseHeaders = h.responseHeaders ∧
      (servedResource cfg fs uri = none →
        g = h ∧ ∃ status msg,
          ((status = 404 ∧ msg = bytes "Not Found") ∨
            (status = 405 ∧ msg = bytes "Method Not Allowed")) ∧
          sendErrorResponse cfg stream status msg rs = some (h.stream, h.responseHeaders)) ∧
      (∀ content, servedResource cfg fs uri = some content →
        h.stream
          = sendResponseHeaders (sendResponseStatus cfg stream 200 (bytes "OK")) h.responseHeaders ∧
        ∃ body rest, g.stream.output = h.stream.output ++ body ∧ content = body ++ rest ∧
          (stream.room = none → content.length < 2147483648 → body = content)) := by
  unfold do_head do_get do_get_or_head servedResource
  cases hs : stat fs (resolveUri cfg uri) with
  | none =>
    obtain ⟨o, hh, he, hr⟩ := replyError_eq cfg fs stream 404 (bytes "Not Found") rs
    simp only [hs, hr]
    exact ⟨_, _, rfl, rfl, rfl, rfl, fun _ => ⟨rfl, 404, _, Or.inl ⟨rfl, rfl⟩, he⟩,
      fun _ hc => by simp at hc⟩
  | some sb =>
    simp only [hs]
    by_cases hdir : sb.st_mode = .dir ∧ strendswith (resolveUri cfg uri) [47] = true
    · simp only [if_pos hdir]
      cases hl : cfg.get_dir_listings fs uri (resolveUri cfg uri) with
      | none =>
        obtain ⟨o, hh, he, hr⟩ := replyError_eq cfg fs stream 405 (bytes "Method Not Allowed") rs
        simp only [hr]
        exact ⟨_, _, rfl, rfl, rfl, rfl, fun _ => ⟨rfl, 405, _, Or.inr ⟨rfl, rfl⟩, he⟩,
          fun _ hc => by simp at hc⟩
      | some lm =>
        obtain ⟨listing, mtime⟩ := lm
        obtain ⟨h3, g, hhead, hget, hfs, hrs, body, rest, hb, hr, hex⟩ :=
          do_get_or_head_send_both cfg props fs stream (resolveUri cfg uri) rs
            (some (Stream.reader listing)) ⟨.reg, listing.length, mtime⟩ listing (Or.inl rfl)
        simp only [hhead, hget]
        refine ⟨_, _, rfl, rfl, hfs, hrs, fun hc => by simp at hc, ?_⟩
        intro content hc
        simp only [Option.map_some', Option.some.injEq] at hc
        subst hc
        exact ⟨rfl, body, rest, hb, hr, fun hroom hlen => hex hroom rfl hlen⟩
    · simp only [if_neg hdir]
      by_cases hreg : sb.st_mode = .reg
      · have hnn : ¬ (sb.st_mode ≠ Mode.reg) := fun h => h hreg
        simp only [if_neg hnn, if_pos hreg]
        obtain ⟨c, hopen, hsize⟩ := stat_reg_inv fs _ sb hs hreg hread
        obtain ⟨h3, g, hhead, hget, hfs, hrs, body, rest, hb, hr, hex⟩ :=
          do_get_or_head_send_both cfg props fs stream (resolveUri cfg uri) rs none sb c
            (Or.inr ⟨rfl, hopen⟩)
        simp only [hhead, hget, hopen]
        refine ⟨_, _, rfl, rfl, hfs, hrs, fun hc => by simp at hc, ?_⟩
        intro content hc
        simp only [Option.map_some', Option.some.injEq, Stream.reader] at hc
        subst hc
        exact ⟨rfl, body, rest, hb, hr, fun hroom hlen => hex hroom hsize hlen⟩
      · have hnn : sb.st_mode ≠ Mode.reg := hreg
        simp only [if_pos hnn, if_neg hreg]
        obtain ⟨o, hh, he, hr⟩ := replyError_eq cfg fs stream 404 (bytes "Not Found") rs
        simp only [hr]
        exact ⟨_, _, rfl, rfl, rfl, rfl, fun _ => ⟨rfl, 404, _, Or.inl ⟨rfl, rfl⟩, he⟩,
          fun _ hc => by simp at hc⟩

/-- An instance: GET of `/a.txt` is HEAD of `/a.txt` followed by the ten bytes of the file. -/
theorem do_head_is_do_get_without_body_witness :
    ∃ h g, do_head demoConfig demoTypes demoFileSys (demoConn "") (bytes "/a.txt") ⟨10, []⟩ ⟨10, []⟩
        = some h ∧
      do_get demoConfig demoTypes demoFileSys (demoConn "") (bytes "/a.txt") ⟨10, []⟩ ⟨10, []⟩
        = some g ∧
      g.stream.output = h.stream.output ++ bytes "0123456789" := by
  obtain ⟨h, g, hh, hg, _, _, _, hok⟩ := do_head_is_do_get_without_body demoConfig demoTypes
    demoFileSys (demoConn "") (bytes "/a.txt") ⟨10, []⟩ ⟨10, []⟩ (by decide)
  obtain ⟨_, body, rest, hb, _, hex⟩ := hok (bytes "0123456789") (by decide)
  have hbody := hex rfl (by decide)
  subst hbody
  exact ⟨h, g, hh, hg, hb⟩

/-- Claim C10, failing input. The resource `/big` is a regular file of 2^31 bytes.
`do_get` writes exactly what `do_head` writes for the same inputs, the status
line and the header block announcing `Content-Length: 2147483648`, and not one
byte of the resource after them: GET's output is not HEAD's output followed by
the resource body. -/
theorem do_get_two_gib_file_writes_only_what_do_head_writes :
    servedResource demoConfig bigFileSys (bytes "/big") = some (List.replicate 2147483648 65) ∧
    do_get demoConfig demoTypes bigFileSys (demoConn "") (bytes "/big") ⟨10, []⟩ ⟨10, []⟩
      = do_head demoConfig demoTypes bigFileSys (demoConn "") (bytes "/big") ⟨10, []⟩ ⟨10, []⟩ ∧
    (do_head demoConfig demoTypes bigFileSys (demoConn "") (bytes "/big") ⟨10, []⟩ ⟨10, []⟩).map
        (fun out => out.stream.output)
      = some (bytes ("HTTP/1.0 200 OK \r\nContent-Length: 2147483648\r\nLast-Modified: 5\r\n" ++
          "Content-type: application/octet-stream\r\n\r\n")) := by
  have hnode : bigFileSys.node (resolveUri demoConfig (bytes "/big"))
      = some (.reg (List.replicate 2147483648 65) 5) := rfl
  have hlock : resolveUri demoConfig (bytes "/big") ∉ bigFileSys.locked := by decide
  have hstat := stat_reg bigFileSys _ _ _ hnode (by decide) (by decide)
  rw [List.length_replicate] at hstat
  have hmode : ¬ ((⟨.reg, 2147483648, 5⟩ : StatBuf).st_mode = Mode.dir ∧
      strendswith (resolveUri demoConfig (bytes "/big")) [47] = true) := by decide
  have hreg : ¬ ((⟨.reg, 2147483648, 5⟩ : StatBuf).st_mode ≠ Mode.reg) := by decide
  have hreg2 : (⟨.reg, 2147483648, 5⟩ : StatBuf).st_mode = Mode.reg := rfl
  refine ⟨?_, ?_, ?_⟩
  · simp only [servedResource, hstat, if_neg hmode, if_pos hreg2, fopen_r, if_neg hlock, hnode]
    rfl
  · simp only [do_get, do_head, do_get_or_head, hstat, if_neg hmode, if_neg hreg]
    exact do_get_or_head_send_no_body _ _ _ _ _ _ _ _ _ (by decide) hnode hlock
  · simp only [do_head, do_get_or_head, hstat, if_neg hmode, if_neg hreg]
    rfl

set_option maxRecDepth 100000 in
/-- The unchecked `fopen` of `do_get_or_head`: for a locked regular file `do_head`
answers 200 with the headers, while `do_get` passes the `NULL` stream on to
`copyFileStreamBytes` and has no result. -/
theorem do_get_locked_file_has_no_result :
    (do_head demoConfig demoTypes lockedFileSys (demoConn "") (bytes "/s.txt") ⟨10, []⟩
        ⟨10, []⟩).map (fun out => out.stream.output)
      = some (bytes ("HTTP/1.0 200 OK \r\nContent-Length: 6\r\nLast-Modified: 2\r\n" ++
          "Content-type: text/plain\r\n\r\n")) ∧
    do_get demoConfig demoTypes lockedFileSys (demoConn "") (bytes "/s.txt") ⟨10, []⟩ ⟨10, []⟩
      = none := by
  decide

/-! ## Method dispatch -/

theorem tolower_eq_zero (c : Nat) : tolower c = 0 ↔ c = 0 := by
  unfold tolower
  split <;> omega

theorem strcasecmp_eq_zero (a : List Nat) :
    ∀ b : List Nat, 0 ∉ a → 0 ∉ b → (strcasecmp a b = 0 ↔ strlower a = strlower b) := by
  induction a with
  | nil =>
    intro b _ hb
    cases b with
    | nil => simp [strcasecmp, strlower]
    | cons y ys =>
      have hy : y ≠ 0 := fun h => hb (by simp [h])
      have : tolower y ≠ 0 := fun h => hy ((tolower_eq_zero y).mp h)
      simp [strcasecmp, strlower]
      omega
  | cons x xs ih =>
    intro b ha hb
    have hx : x ≠ 0 := fun h => ha (by simp [h])
    have hx2 : tolower x ≠ 0 := fun h => hx ((tolower_eq_zero x).mp h)
    cases b with
    | nil =>
      simp [strcasecmp, strlower]
      omega
    | cons y ys =>
      have ha2 : 0 ∉ xs := fun h => ha (List.mem_cons_of_mem _ h)
      have hb2 : 0 ∉ ys := fun h => hb (List.mem_cons_of_mem _ h)
      by_cases hxy : tolower x = tolower y
      · simp only [strcasecmp, hxy, if_true, strlower, List.map_cons, List.cons.injEq, true_and]
        exact ih ys ha2 hb2
      · simp only [strcasecmp, hxy, if_false, strlower, List.map_cons, List.cons.injEq, false_and,
          iff_false]
        omega

theorem cstr_no_zero (buf : List Nat) : 0 ∉ cstr buf := by
  intro h
  have := List.mem_takeWhile_imp h
  simp at this

theorem mem_trim_newline (c : Nat) (s : List Nat) (h : c ∈ trim_newline s) : c ∈ s := by
  unfold trim_newline List.rdropWhile at h
  rw [List.mem_reverse] at h
  exact List.mem_reverse.mp ((List.dropWhile_sublist _).subset h)

theorem scanStrings_mem (k : Nat) :
    ∀ (s t : List Nat) (c : Nat), t ∈ scanStrings k s → c ∈ t → c ∈ s := by
  induction k with
  | zero => intro s t c h; simp [scanStrings] at h
  | succ k ih =>
    intro s t c ht hc
    unfold scanStrings at ht
    cases hs : scanString s with
    | none => simp [hs] at ht
    | some r =>
      obtain ⟨tok, rest⟩ := r
      simp only [hs, List.mem_cons] at ht
      unfold scanString at hs
      split at hs
      · simp at hs
      · rename_i x xs hd
        simp only [Option.some.injEq, Prod.mk.injEq] at hs
        obtain ⟨h1, h2⟩ := hs
        have hsub : ∀ y, y ∈ x :: xs → y ∈ s := fun y hy => by
          rw [← hd] at hy
          exact (List.dropWhile_sublist _).subset hy
        rcases ht with ht | ht
        · subst ht
          rw [← h1] at hc
          exact hsub _ ((List.takeWhile_sublist _).subset hc)
        · have := ih rest t c ht hc
          rw [← h2] at this
          exact hsub _ ((List.dropWhile_sublist _).subset this)

/-- The method token of a parsed request line contains no NUL byte. -/
theorem method_no_zero (buf method encUri version : List Nat)
    (h : sscanf_3s (trim_newline (cstr buf)) = (3, [method, encUri, version])) : 0 ∉ method := by
  intro h0
  have h2 : scanStrings 3 (trim_newline (cstr buf)) = [method, encUri, version] := by
    have := congrArg Prod.snd h
    simpa [sscanf_3s] using this
  have hm : method ∈ scanStrings 3 (trim_newline (cstr buf)) := by rw [h2]; simp
  exact cstr_no_zero buf (mem_trim_newline _ _ (scanStrings_mem 3 _ _ _ hm h0))

theorem strcasecmp_literal (method lit low : List Nat) (hm : 0 ∉ method) (hl : 0 ∉ lit)
    (hlow : strlower lit = low) : strcasecmp method lit = 0 ↔ strlower method = low := by
  rw [strcasecmp_eq_zero method lit hm hl, hlow]

theorem dispatch_by_method (cfg : Config) (props : Properties) (fs : FileSys) (s2 : Stream)
    (method uri : List Nat) (rq rs : Properties) (hm : 0 ∉ method) :
    (strlower method = bytes "get" →
      dispatch cfg props fs s2 method uri rq rs = do_get cfg props fs s2 uri rq rs) ∧
    (strlower method = bytes "head" →
      dispatch cfg props fs s2 method uri rq rs = do_head cfg props fs s2 uri rq rs) ∧
    (strlower method = bytes "delete" →
      dispatch cfg props fs s2 method uri rq rs = do_delete cfg fs s2 uri rq rs) ∧
    (strlower method = bytes "put" →
      dispatch cfg props fs s2 method uri rq rs = do_put cfg fs s2 uri rq rs) ∧
    (strlower method = bytes "post" →
      dispatch cfg props fs s2 method uri rq rs = do_post cfg fs s2 uri rq rs) ∧
    (strlower method ≠ bytes "get" → strlower method ≠ bytes "head" →
      strlower method ≠ bytes "delete" → strlower method ≠ bytes "put" →
      strlower method ≠ bytes "post" →
      dispatch cfg props fs s2 method uri rq rs
        = replyError cfg fs s2 501 (bytes "Not Implemented") rs) := by
  have hget := strcasecmp_literal method (bytes "GET") (bytes "get") hm (by decide) (by decide)
  have hhead := strcasecmp_literal method (bytes "HEAD") (bytes "head") hm (by decide) (by decide)
  have hdel := strcasecmp_literal method (bytes "DELETE") (bytes "delete") hm (by decide)
    (by decide)
  have hput := strcasecmp_literal method (bytes "PUT") (bytes "put") hm (by decide) (by decide)
  have hpost := strcasecmp_literal method (bytes "POST") (bytes "post") hm (by decide) (by decide)
  unfold dispatch
  simp only [hget, hhead, hdel, hput, hpost]
  refine ⟨?_, ?_, ?_, ?_, ?_, ?_⟩
  · intro h
    rw [if_pos h]
  · intro h
    have h1 : strlower method ≠ bytes "get" := by rw [h]; decide
    rw [if_neg h1, if_pos h]
  · intro h
    have h1 : strlower method ≠ bytes "get" := by rw [h]; decide
    have h2 : strlower method ≠ bytes "head" := by rw [h]; decide
    rw [if_neg h1, if_neg h2, if_pos h]
  · intro h
    have h1 : strlower method ≠ bytes "get" := by rw [h]; decide
    have h2 : strlower method ≠ bytes "head" := by rw [h]; decide
    have h3 : strlower method ≠ bytes "delete" := by rw [h]; decide
    rw [if_neg h1, if_neg h2, if_neg h3, if_pos h]
  · intro h
    have h1 : strlower method ≠ bytes "get" := by rw [h]; decide
    have h2 : strlower method ≠ bytes "head" := by rw [h]; decide
    have h3 : strlower method ≠ bytes "delete" := by rw [h]; decide
    have h4 : strlower method ≠ bytes "put" := by rw [h]; decide
    rw [if_neg h1, if_neg h2, if_neg h3, if_neg h4, if_pos h]
  · intro h1 h2 h3 h4 h5
    rw [if_neg h1, if_neg h2, if_neg h3, if_neg h4, if_neg h5]

/-- A request line of three tokens and a decodable URI lead to the dispatch,
followed by the teardown. -/
theorem process_request_reaches_dispatch (cfg : Config) (props : Properties) (fs : FileSys)
    (stream s1 s2 : Stream) (buf method encUri version ubuf : List Nat) (rq : Properties)
    (hline : fgets cfg.MAXBUF stream = (some buf, s1))
    (htok : sscanf_3s (trim_newline (cstr buf)) = (3, [method, encUri, version]))
    (hhdr : readRequestHeaders cfg s1 (newProperties cfg.MAX_PROPS) = some (s2, rq))
    (huri : unescapeUri (splitQuery rq encUri).2 = .uri ubuf) :
    process_request cfg props fs stream
      = (dispatch cfg props fs s2 method (cstr ubuf) (splitQuery rq encUri).1
          (initialResponseHeaders cfg fs)).map teardown := by
  unfold process_request
  rw [hline]
  simp only [htok, ne_eq, not_true_eq_false, if_false, List.getD_cons_zero, List.getD_cons_succ]
  unfold process_request_rest
  rw [hhdr]
  simp only [huri]

/-- Claim C9. Method dispatch depends on the method token only up to letter case:
for a request line of three tokens whose URI decodes, a method equal ignoring
case to GET, HEAD, DELETE, PUT or POST makes `process_request` run exactly the
corresponding handler (on the connection after the request headers, with the
decoded URI and both header stores) and then tear down; any other method token
yields the 501 error response with the file system unchanged. -/
theorem process_request_dispatch (cfg : Config) (props : Properties) (fs : FileSys)
    (stream s1 s2 : Stream) (buf method encUri version ubuf : List Nat) (rq : Properties)
    (hline : fgets cfg.MAXBUF stream = (some buf, s1))
    (htok : sscanf_3s (trim_newline (cstr buf)) = (3, [method, encUri, version]))
    (hhdr : readRequestHeaders cfg s1 (newProperties cfg.MAX_PROPS) = some (s2, rq))
    (huri : unescapeUri (splitQuery rq encUri).2 = .uri ubuf) :
    (strlower method = bytes "get" →
      process_request cfg props fs stream
        = (do_get cfg props fs s2 (cstr ubuf) (splitQuery rq encUri).1
            (initialResponseHeaders cfg fs)).map teardown) ∧
    (strlower method = bytes "head" →
      process_request cfg props fs stream
        = (do_head cfg props fs s2 (cstr ubuf) (splitQuery rq encUri).1
            (initialResponseHeaders cfg fs)).map teardown) ∧
    (strlower method = bytes "delete" →
      process_request cfg props fs stream
        = (do_delete cfg fs s2 (cstr ubuf) (splitQuery rq encUri).1
            (initialResponseHeaders cfg fs)).map teardown) ∧
    (strlower method = bytes "put" →
      process_request cfg props fs stream
        = (do_put cfg fs s2 (cstr ubuf) (splitQuery rq encUri).1
            (initialResponseHeaders cfg fs)).map teardown) ∧
    (strlower method = bytes "post" →
      process_request cfg props fs stream
        = (do_post cfg fs s2 (cstr ubuf) (splitQuery rq encUri).1
            (initialResponseHeaders cfg fs)).map teardown) ∧
    (strlower method ≠ bytes "get" → strlower method ≠ bytes "head" →
      strlower method ≠ bytes "delete" → strlower method ≠ bytes "put" →
      strlower method ≠ bytes "post" →
      ∃ o h, sendErrorResponse cfg s2 501 (bytes "Not Implemented")
          (initialResponseHeaders cfg fs) = some (o, h) ∧
        process_request cfg props fs stream = some ⟨fs, o, 2, 2, true⟩) := by
  have hp := process_request_reaches_dispatch cfg props fs stream s1 s2 buf method encUri version
    ubuf rq hline htok hhdr huri
  obtain ⟨h1, h2, h3, h4, h5, h6⟩ := dispatch_by_method cfg props fs s2 method (cstr ubuf)
    (splitQuery rq encUri).1 (initialResponseHeaders cfg fs)
    (method_no_zero buf method encUri version htok)
  refine ⟨fun h => ?_, fun h => ?_, fun h => ?_, fun h => ?_, fun h => ?_, ?_⟩
  · rw [hp, h1 h]
  · rw [hp, h2 h]
  · rw [hp, h3 h]
  · rw [hp, h4 h]
  · rw [hp, h5 h]
  · intro a b c d e
    obtain ⟨o, h, he, hr⟩ := replyError_eq cfg fs s2 501 (bytes "Not Implemented")
      (initialResponseHeaders cfg fs)
    exact ⟨o, h, he, by rw [hp, h6 a b c d e, hr]; rfl⟩

set_option maxRecDepth 100000 in
/-- Witness for claim C9: the request line `gEt /a.txt HTTP/1.0` runs `do_get`. -/
theorem process_request_dispatch_witness :
    process_request demoConfig demoTypes demoFileSys (demoConn "gEt /a.txt HTTP/1.0\r\n\r\n")
      = (do_get demoConfig demoTypes demoFileSys (demoConn "") (bytes "/a.txt") ⟨10, []⟩
          (initialResponseHeaders demoConfig demoFileSys)).map teardown :=
  (process_request_dispatch demoConfig demoTypes demoFileSys
    (demoConn "gEt /a.txt HTTP/1.0\r\n\r\n") (demoConn "\r\n") (demoConn "")
    (bytes "gEt /a.txt HTTP/1.0\r\n") (bytes "gEt") (bytes "/a.txt") (bytes "HTTP/1.0")
    (bytes "/a.txt") ⟨10, []⟩ (by decide) (by decide) (by decide) (by decide)).1 (by decide)

/-! ## The request line -/

theorem tokensFrom_cur (s : List Nat) :
    ∀ cur : List Nat, cur ≠ [] →
      tokensFrom cur s
        = (cur.reverse ++ s.takeWhile (fun x => !isspace x))
            :: tokensFrom [] (s.dropWhile (fun x => !isspace x)) := by
  induction s with
  | nil => intro cur h; simp [tokensFrom, h]
  | cons c cs ih =>
    intro cur h
    by_cases hc : isspace c = true
    · simp [tokensFrom, hc, h, List.takeWhile, List.dropWhile]
    · have hc2 : isspace c = false := by simpa using hc
      rw [tokensFrom, if_neg hc, ih (c :: cur) (by simp)]
      simp [List.takeWhile, List.dropWhile, hc2]

theorem tokensFrom_skip (s : List Nat) :
    tokensFrom [] s = tokensFrom [] (s.dropWhile isspace) := by
  induction s with
  | nil => rfl
  | cons c cs ih =>
    by_cases hc : isspace c = true
    · simp [tokensFrom, hc, List.dropWhile, ih]
    · have hc2 : isspace c = false := by simpa using hc
      simp [List.dropWhile, hc2]

theorem tokens_scanString (s : List Nat) :
    tokens s = match scanString s with
      | none => []
      | some (t, rest) => t :: tokens rest := by
  unfold tokens scanString
  rw [tokensFrom_skip]
  cases hd : s.dropWhile isspace with
  | nil => simp [tokensFrom]
  | cons c cs =>
    have hc : isspace c = false := by
      have := List.head_dropWhile_not isspace s (by simp [hd])
      simpa [hd] using this
    simp only []
    rw [tokensFrom, if_neg (by simp [hc]), tokensFrom_cur cs [c] (by simp)]
    simp [List.takeWhile, List.dropWhile, hc]

theorem scanStrings_eq_take (k : Nat) : ∀ s : List Nat, scanStrings k s = (tokens s).take k := by
  induction k with
  | zero => intro s; simp [scanStrings]
  | succ k ih =>
    intro s
    rw [tokens_scanString s, scanStrings]
    cases scanString s with
    | none => simp
    | some r =>
      obtain ⟨t, rest⟩ := r
      simp [ih rest]

theorem sscanf_3s_few (s : List Nat) (h : (tokens s).length < 3) : (sscanf_3s s).1 ≠ 3 := by
  unfold sscanf_3s
  simp only [scanStrings_eq_take]
  split
  · decide
  · simp only [List.length_take]
    omega

theorem sscanf_3s_three (s m e v : List Nat) (more : List (List Nat))
    (h : tokens s = m :: e :: v :: more) : sscanf_3s s = (3, [m, e, v]) := by
  unfold sscanf_3s
  simp [scanStrings_eq_take, h]

/-- Claim C8, as amended. `process_request` answers a request line of fewer than
three white-space delimited tokens with the 400 error response, running no
handler and leaving the file system unchanged; a line of three or more tokens is
accepted, and its first two tokens are the method and the escaped URI the rest
of the request is processed with. -/
theorem process_request_request_line (cfg : Config) (props : Properties) (fs : FileSys)
    (stream s1 : Stream) (buf : List Nat) (hline : fgets cfg.MAXBUF stream = (some buf, s1)) :
    ((tokens (trim_newline (cstr buf))).length < 3 →
      ∃ o h, sendErrorResponse cfg s1 400 (bytes "Bad Request") (initialResponseHeaders cfg fs)
          = some (o, h) ∧
        process_request cfg props fs stream = some ⟨fs, o, 1, 0, false⟩) ∧
    (∀ m e v more, tokens (trim_newline (cstr buf)) = m :: e :: v :: more →
      process_request cfg props fs stream
        = process_request_rest cfg props fs s1 (initialResponseHeaders cfg fs) m e) := by
  constructor
  · intro hlt
    obtain ⟨o, h, he⟩ := sendErrorResponse_isSome cfg s1 400 (bytes "Bad Request")
      (initialResponseHeaders cfg fs)
    refine ⟨o, h, he, ?_⟩
    unfold process_request
    rw [hline]
    simp only [if_pos (sscanf_3s_few _ hlt), he, Option.map_some']
  · intro m e v more ht
    unfold process_request
    rw [hline]
    simp only [sscanf_3s_three _ m e v more ht, ne_eq, not_true_eq_false, if_false,
      List.getD_cons_zero, List.getD_cons_succ]

set_option maxRecDepth 100000 in
/-- Witness for claim C8, as amended: the request line `GET /a.txt` has two tokens and gets the
400 error response. -/
theorem process_request_request_line_witness :
    ∃ o h, sendErrorResponse demoConfig (demoConn "\r\n") 400 (bytes "Bad Request")
        (initialResponseHeaders demoConfig demoFileSys) = some (o, h) ∧
      process_request demoConfig demoTypes demoFileSys (demoConn "GET /a.txt\r\n\r\n")
        = some ⟨demoFileSys, o, 1, 0, false⟩ :=
  (process_request_request_line demoConfig demoTypes demoFileSys (demoConn "GET /a.txt\r\n\r\n")
    (demoConn "\r\n") (bytes "GET /a.txt\r\n") (by decide)).1 (by decide)

set_option maxRecDepth 100000 in
/-- Claim C8, counterexample. The request line `GET /a.txt HTTP/1.0 extra` has four
tokens, and `process_request` answers it with 200 and the file: `do_get` ran. -/
theorem request_line_of_four_tokens_accepted :
    (tokens (bytes "GET /a.txt HTTP/1.0 extra")).length = 4 ∧
    (process_request demoConfig demoTypes demoFileSys
        (demoConn "GET /a.txt HTTP/1.0 extra\r\n\r\n")).map (fun r => r.stream.output)
      = some (bytes ("HTTP/1.0 200 OK \r\nServer: srv\r\nDate: 100\r\nContent-Length: 10\r\n" ++
          "Last-Modified: 2\r\nContent-type: text/plain\r\n\r\n0123456789")) := by
  constructor <;> decide

/-! ## Where `resolveUri` points -/

theorem splitSlash_ne_nil (s : List Nat) : splitSlash s ≠ [] := by
  induction s with
  | nil => simp [splitSlash]
  | cons c cs ih =>
    unfold splitSlash
    split
    · simp
    · split <;> simp

theorem splitSlash_append (a b : List Nat) :
    splitSlash (a ++ 47 :: b) = splitSlash a ++ splitSlash b := by
  induction a with
  | nil => simp [splitSlash]
  | cons c cs ih =>
    by_cases hc : c = 47
    · simp [splitSlash, hc, ih]
    · simp only [List.cons_append, splitSlash, if_neg hc]
      have ih2 : splitSlash (cs.append (47 :: b)) = splitSlash cs ++ splitSlash b := ih
      rw [ih2]
      cases hs : splitSlash cs with
      | nil => exact absurd hs (splitSlash_ne_nil cs)
      | cons seg segs => rfl

theorem resolveDots_append (a : List (List Nat)) :
    ∀ (stack : List (List Nat)) (b : List (List Nat)),
      resolveDots stack (a ++ b) = resolveDots (resolveDots stack a) b := by
  induction a with
  | nil => intro stack b; rfl
  | cons seg segs ih =>
    intro stack b
    simp only [List.cons_append, resolveDots]
    split
    · exact ih _ _
    · split
      · exact ih _ _
      · exact ih _ _

theorem resolveDots_above (segs : List (List Nat)) :
    ∀ (stack base : List (List Nat)), staysBelow stack.length segs = true →
      resolveDots (stack ++ base) segs = resolveDots stack segs ++ base := by
  induction segs with
  | nil => intro stack base _; rfl
  | cons seg rest ih =>
    intro stack base h
    simp only [staysBelow] at h
    simp only [resolveDots]
    by_cases h1 : seg = [] ∨ seg = [46]
    · rw [if_pos h1] at h ⊢
      rw [if_pos h1]
      exact ih _ _ h
    · rw [if_neg h1] at h ⊢
      rw [if_neg h1]
      by_cases h2 : seg = [46, 46]
      · rw [if_pos h2] at h ⊢
        rw [if_pos h2]
        simp only [Bool.and_eq_true, bne_iff_ne, ne_eq] at h
        cases stack with
        | nil => simp at h
        | cons top below =>
          simp only [List.cons_append, List.tail_cons]
          exact ih _ _ (by simpa using h.2)
      · rw [if_neg h2] at h ⊢
        rw [if_neg h2]
        have := ih (seg :: stack) base (by simpa using h)
        simpa using this

/-- Claim C7, as amended. `resolveUri` returns the content base followed by the URI.
For a URI that begins with `/` and whose `..` segments never climb above the
URI's own root, the path denotes, once `.` and `..` are resolved, a location
beneath the content base directory. -/
theorem resolveUri_beneath_content_base (cfg : Config) (rest : List Nat)
    (h : staysBelow 0 (splitSlash rest) = true) :
    resolveUri cfg (47 :: rest) = cfg.content_base ++ 47 :: rest ∧
    beneath cfg.content_base (resolveUri cfg (47 :: rest)) := by
  refine ⟨rfl, (resolveDots [] (splitSlash rest)).reverse, ?_⟩
  unfold location resolveUri
  rw [splitSlash_append, resolveDots_append]
  have := resolveDots_above (splitSlash rest) [] (resolveDots [] (splitSlash cfg.content_base))
    (by simpa using h)
  rw [List.nil_append] at this
  rw [this, List.reverse_append]

/-- Witness for claim C7, as amended: `/d/../a.txt` stays beneath `/www`. -/
theorem resolveUri_beneath_content_base_witness :
    resolveUri demoConfig (bytes "/d/../a.txt") = bytes "/www/d/../a.txt" ∧
    beneath demoConfig.content_base (resolveUri demoConfig (bytes "/d/../a.txt")) :=
  resolveUri_beneath_content_base demoConfig (bytes "d/../a.txt") (by decide)

/-- Claim C7, counterexample. For the URI `/../etc/passwd` and the content base
`/www`, `resolveUri` returns `/www/../etc/passwd`, which denotes `/etc/passwd`:
not a location beneath `/www`. -/
theorem resolveUri_escapes_content_base :
    resolveUri demoConfig (bytes "/../etc/passwd") = bytes "/www/../etc/passwd" ∧
    location (resolveUri demoConfig (bytes "/../etc/passwd")) = [bytes "etc", bytes "passwd"] ∧
    location demoConfig.content_base = [bytes "www"] ∧
    ¬ beneath demoConfig.content_base (resolveUri demoConfig (bytes "/../etc/passwd")) := by
  have h1 : location (resolveUri demoConfig (bytes "/../etc/passwd"))
      = [bytes "etc", bytes "passwd"] := by decide
  have h2 : location demoConfig.content_base = [bytes "www"] := by decide
  refine ⟨by decide, h1, h2, ?_⟩
  rintro ⟨below, hb⟩
  rw [h1, h2] at hb
  simp only [List.cons_append, List.nil_append, List.cons.injEq] at hb
  exact absurd hb.1 (by decide)

/-! ## Decimal lengths are read back by `atoi` -/

theorem digitChar_toNat (d : Nat) (h : d < 10) : (Nat.digitChar d).toNat = 48 + d := by
  interval_cases d <;> rfl

theorem toDigitsCore_parse :
    ∀ (fuel n : Nat) (ds : List Char), n < fuel →
      ((Nat.toDigitsCore 10 fuel n ds).map Char.toNat).foldl (fun a d => 10 * a + (d - 48)) 0
        = (ds.map Char.toNat).foldl (fun a d => 10 * a + (d - 48)) n := by
  intro fuel
  induction fuel with
  | zero => intro n ds h; omega
  | succ fuel ih =>
    intro n ds h
    have hd : (Nat.digitChar (n % 10)).toNat = 48 + n % 10 := digitChar_toNat _ (by omega)
    unfold Nat.toDigitsCore
    simp only []
    split
    · rename_i h0
      simp only [List.map_cons, List.foldl_cons, hd]
      congr 1
      omega
    · rename_i h0
      rw [ih (n / 10) _ (by omega)]
      simp only [List.map_cons, List.foldl_cons, hd]
      congr 1
      omega

theorem toDigitsCore_digits :
    ∀ (fuel n : Nat) (ds : List Char), (∀ c ∈ ds, isdigit c.toNat = true) →
      ∀ c ∈ Nat.toDigitsCore 10 fuel n ds, isdigit c.toNat = true := by
  intro fuel
  induction fuel with
  | zero => intro n ds h; simpa [Nat.toDigitsCore] using h
  | succ fuel ih =>
    intro n ds h
    have hd : isdigit (Nat.digitChar (n % 10)).toNat = true := by
      rw [digitChar_toNat _ (by omega)]
      simp [isdigit]
      omega
    have hcons : ∀ c ∈ Nat.digitChar (n % 10) :: ds, isdigit c.toNat = true := by
      intro c hc
      rcases List.mem_cons.mp hc with rfl | hc
      · exact hd
      · exact h c hc
    unfold Nat.toDigitsCore
    simp only []
    split
    · exact hcons
    · exact ih _ _ hcons

theorem toDigitsCore_ne_nil (fuel n : Nat) (ds : List Char) :
    Nat.toDigitsCore 10 (fuel + 1) n ds ≠ [] := by
  induction fuel generalizing n ds with
  | zero =>
    unfold Nat.toDigitsCore
    simp only []
    split
    · simp
    · simp [Nat.toDigitsCore]
  | succ fuel ih =>
    unfold Nat.toDigitsCore
    simp only []
    split
    · simp
    · exact ih _ _

/-- The decimal representation of a length below 2^31 is read back by `atoi`. -/
theorem atoi_fmt_lu (n : Nat) (h : n < 2147483648) : atoi (fmt_lu n) = (n : Int) := by
  have hdig : ∀ c ∈ fmt_lu n, isdigit c = true := by
    intro c hc
    simp only [fmt_lu, Nat.toDigits, List.mem_map] at hc
    obtain ⟨ch, hch, rfl⟩ := hc
    exact toDigitsCore_digits _ _ [] (by simp) ch hch
  have hne : fmt_lu n ≠ [] := by
    simp only [fmt_lu, Nat.toDigits, ne_eq, List.map_eq_nil_iff]
    exact toDigitsCore_ne_nil n n []
  obtain ⟨c, cs, hcs⟩ := List.exists_cons_of_ne_nil hne
  have hc : isdigit c = true := hdig c (by rw [hcs]; simp)
  have hsp : isspace c = false := by
    simp only [isdigit, Bool.and_eq_true, decide_eq_true_eq] at hc
    simp only [isspace, Bool.or_eq_false_iff, beq_eq_false_iff_ne, ne_eq, Bool.and_eq_false_iff,
      decide_eq_false_iff_not]
    omega
  have hdrop : (fmt_lu n).dropWhile isspace = fmt_lu n := by
    rw [hcs, List.dropWhile_cons_of_neg (by simp [hsp])]
  have hhead : (fmt_lu n).head? = some c := by rw [hcs]; rfl
  have hm : c ≠ 45 ∧ c ≠ 43 := by
    simp only [isdigit, Bool.and_eq_true, decide_eq_true_eq] at hc
    omega
  have htake : (fmt_lu n).takeWhile isdigit = fmt_lu n :=
    List.takeWhile_eq_self_iff.mpr hdig
  have hval : (fmt_lu n).foldl (fun a d => 10 * a + (d - 48)) 0 = n := by
    simp only [fmt_lu, Nat.toDigits]
    rw [toDigitsCore_parse (n + 1) n [] (by omega)]
    rfl
  unfold atoi
  simp only [hdrop, hhead, Option.some.injEq, hm.1, hm.2, or_self, if_false, htake, hval]
  have hlt : n < 9223372036854775808 := by omega
  simp only [hlt, if_true]
  exact toInt32_small n h

/-! ## PUT -/

theorem Extends.trans (a b c : FileSys) (h1 : a.Extends b) (h2 : b.Extends c) : a.Extends c :=
  ⟨h2.1.trans h1.1, h2.2.1.trans h1.2.1, fun k n h => h2.2.2 k n (h1.2.2 k n h)⟩

theorem indexOf?_none_of_not_mem (l : List Nat) (c : Nat) (h : c ∉ l) : l.indexOf? c = none := by
  unfold List.indexOf?
  rw [List.findIdx?_eq_none_iff]
  intro x hx
  simp only [beq_iff_eq, Bool.not_eq_true, beq_eq_false_iff_ne, ne_eq]
  intro hxc
  exact h (hxc ▸ hx)

theorem strrchr_none (f : List Nat) (c : Nat) (h : c ∉ f) : strrchr f c = none := by
  unfold strrchr
  rw [indexOf?_none_of_not_mem f.reverse c (by simpa using h)]

theorem strrchr_last (pre ext : List Nat) (c : Nat) (h : c ∉ ext) :
    strrchr (pre ++ c :: ext) c = some pre.length := by
  unfold strrchr
  have h1 : (pre ++ c :: ext).reverse.indexOf? c = some ext.length := by
    have hr : (pre ++ c :: ext).reverse = ext.reverse ++ c :: pre.reverse := by simp
    rw [hr]
    unfold List.indexOf?
    rw [List.findIdx?_append]
    have h0 := indexOf?_none_of_not_mem ext.reverse c (by simpa using h)
    unfold List.indexOf? at h0
    rw [h0, List.findIdx?_cons]
    simp
  rw [h1]
  simp only [List.length_append, List.length_cons]
  congr 1
  omega

theorem getExtension_last (pre ext : List Nat) (h : 46 ∉ ext) :
    getExtension (pre ++ 46 :: ext) = some ext := by
  unfold getExtension
  rw [strrchr_last pre ext 46 h]
  simp

theorem findFrom_first (name T : List Nat) :
    ∀ (entries : List (List Nat × List Nat)) (k i : Nat),
      entries.get? i = some (name, T) →
      (∀ j, j < i → ∀ e, entries.get? j = some e → e.1 ≠ name) →
      findFrom name k entries = some (k + i, T) := by
  intro entries
  induction entries with
  | nil => intro k i h; simp at h
  | cons e rest ih =>
    intro k i h hfirst
    obtain ⟨n, v⟩ := e
    cases i with
    | zero =>
      simp only [List.get?_cons_zero, Option.some.injEq, Prod.mk.injEq] at h
      simp [findFrom, h.1, h.2]
    | succ i =>
      have hn : n ≠ name := hfirst 0 (Nat.succ_pos i) (n, v) rfl
      simp only [findFrom, if_neg hn]
      rw [ih (k + 1) i (by simpa using h)
        (fun j hj e he => hfirst (j + 1) (Nat.succ_lt_succ hj) e (by simpa using he))]
      congr 2
      omega

theorem findFrom_none (name : List Nat) :
    ∀ (entries : List (List Nat × List Nat)) (k : Nat),
      (∀ e ∈ entries, e.1 ≠ name) → findFrom name k entries = none := by
  intro entries
  induction entries with
  | nil => intro k _; rfl
  | cons e rest ih =>
    intro k h
    obtain ⟨n, v⟩ := e
    have hn : n ≠ name := h (n, v) (List.mem_cons_self _ _)
    simp only [findFrom, if_neg hn]
    exact ih (k + 1) (fun e he => h e (List.mem_cons_of_mem _ he))

/-- Claim C11. `getMediaType` answers `text/directory` for a name ending in `/`;
for any other name with a `.` it answers the value of the first table entry whose
name is the lower-cased text after the last `.`, and `application/octet-stream`
when no entry has that name; it answers `application/octet-stream` for a name
without `.`. With a table mapping `html` to `text/html`, both `index.html` and
`INDEX.HTML` give `text/html`, and `noext` and `unknown.xyz` give the default. -/
theorem getMediaType_by_extension (props : Properties) :
    (∀ f, f.getLast? = some 47 → getMediaType props f = bytes "text/directory") ∧
    (∀ pre ext T i, 46 ∉ ext → (pre ++ 46 :: ext).getLast? ≠ some 47 →
      getProperty props i = some (strlower ext, T) →
      (∀ j, j < i → ∀ e, getProperty props j = some e → e.1 ≠ strlower ext) →
      getMediaType props (pre ++ 46 :: ext) = T) ∧
    (∀ pre ext, 46 ∉ ext → (pre ++ 46 :: ext).getLast? ≠ some 47 →
      (∀ e ∈ props.entries, e.1 ≠ strlower ext) →
      getMediaType props (pre ++ 46 :: ext) = bytes "application/octet-stream") ∧
    (∀ f, f ≠ [] → 46 ∉ f → f.getLast? ≠ some 47 →
      getMediaType props f = bytes "application/octet-stream") ∧
    getMediaType ⟨10, [(bytes "html", bytes "text/html")]⟩ (bytes "index.html") = bytes "text/html" ∧
    getMediaType ⟨10, [(bytes "html", bytes "text/html")]⟩ (bytes "INDEX.HTML") = bytes "text/html" ∧
    getMediaType ⟨10, [(bytes "html", bytes "text/html")]⟩ (bytes "noext") =
      bytes "application/octet-stream" ∧
    getMediaType ⟨10, [(bytes "html", bytes "text/html")]⟩ (bytes "unknown.xyz") =
      bytes "application/octet-stream" ∧
    getMediaType ⟨10, [(bytes "html", bytes "text/html")]⟩ (bytes "dir/") = bytes "text/directory" := by
  refine ⟨?_, ?_, ?_, ?_, by decide, by decide, by decide, by decide, by decide⟩
  · intro f hf
    simp [getMediaType, hf]
  · intro pre ext T i hext hlast hget hfirst
    unfold getMediaType
    rw [if_neg hlast, getExtension_last pre ext hext]
    have h := findFrom_first (strlower ext) T props.entries 0 i hget hfirst
    simp only [findProperty, List.drop_zero, h]
  · intro pre ext hext hlast hnone
    unfold getMediaType
    rw [if_neg hlast, getExtension_last pre ext hext]
    have h := findFrom_none (strlower ext) props.entries 0 hnone
    simp only [findProperty, List.drop_zero, h]
  · intro f _ hdot hlast
    unfold getMediaType
    rw [if_neg hlast]
    simp only [getExtension, strrchr_none f 46 hdot]

/-- Witness for claim C11: the name `a.TXT` is looked up as `txt`. -/
theorem getMediaType_by_extension_witness :
    getMediaType demoTypes (bytes "a" ++ 46 :: bytes "TXT") = bytes "text/plain" :=
  (getMediaType_by_extension demoTypes).2.1 (bytes "a") (bytes "TXT") (bytes "text/plain") 0
    (by decide) (by decide) (by decide) (fun j hj => absurd hj (Nat.not_lt_zero j))

set_option maxRecDepth 100000 in
/-- Claim C12, failing input. The table source is the one line `text/html html htm`
ended by a newline. `readMediaTypes` registers two entries, but the last extension
is stored with the newline attached, so `x.htm` gets the default type and not
`text/html`; only `x.html` is resolved. -/
theorem readMediaTypes_last_extension_keeps_newline :
    readMediaTypes demoConfig mimeFileSys (bytes "/etc/mime.types") none =
      some (some ⟨10, [(bytes "html", bytes "text/html"), (bytes "htm\n", bytes "text/html")]⟩, 2) ∧
    getMediaType ⟨10, [(bytes "html", bytes "text/html"), (bytes "htm\n", bytes "text/html")]⟩
      (bytes "x.htm") = bytes "application/octet-stream" ∧
    getMediaType ⟨10, [(bytes "html", bytes "text/html"), (bytes "htm\n", bytes "text/html")]⟩
      (bytes "x.html") = bytes "text/html" := by
  decide

set_option maxRecDepth 100000 in
/-- Claim C14, failing input. With protocol `HTTP/1.0`, code 200 and phrase `OK`,
`sendResponseStatus` writes `HTTP/1.0 200 OK`, a space, and then CRLF: the output
is not the status line followed immediately by CRLF. -/
theorem sendResponseStatus_space_before_crlf :
    (sendResponseStatus demoConfig (demoConn "") 200 (bytes "OK")).output =
      bytes "HTTP/1.0 200 OK \r\n" ∧
    (sendResponseStatus demoConfig (demoConn "") 200 (bytes "OK")).output ≠
      bytes "HTTP/1.0 200 OK\r\n" := by
  decide

set_option maxRecDepth 100000 in
/-- Claim C15, failing input. On the request line `GET /a.txt` of two fields,
`process_request` answers 400 and returns with one header store created, none
released and the connection not closed; on a request with the invalid escape
`%zz` it answers 400 and returns with two stores created, none released and the
connection not closed. A well-formed request ends with both stores released and
the connection closed. -/
theorem process_request_bad_request_skips_teardown :
    (process_request demoConfig demoTypes demoFileSys (demoConn "GET /a.txt\r\n\r\n")).map
        (fun r => (r.storesCreated, r.storesReleased, r.closed)) = some (1, 0, false) ∧
    (process_request demoConfig demoTypes demoFileSys (demoConn "GET /%zz HTTP/1.0\r\n\r\n")).map
        (fun r => (r.storesCreated, r.storesReleased, r.closed)) = some (2, 0, false) ∧
    (process_request demoConfig demoTypes demoFileSys (demoConn "GET /a.txt HTTP/1.0\r\n\r\n")).map
        (fun r => (r.storesCreated, r.storesReleased, r.closed)) = some (2, 2, true) := by
  decide

set_option maxRecDepth 100000 in
/-- Claim C18, failing input. For an entry of size 0 `tostring` leaves the empty
string, so the size cell of the row `makeHtmlEntry` writes is empty and not `0`;
for an entry of size 10 the cell is `10`. -/
theorem makeHtmlEntry_size_zero_cell_empty :
    tostring 0 = some [] ∧
    (makeHtmlEntry (demoConn "") (bytes "a.txt") (bytes "2019-04-10 12:00:00") 0 32768).map
        (fun s => s.output) =
      some (htmlRow (bytes "a.txt") (bytes "a.txt") (bytes "2019-04-10 12:00:00") [] (bytes "File")) ∧
    (makeHtmlEntry (demoConn "") (bytes "a.txt") (bytes "2019-04-10 12:00:00") 0 32768).map
        (fun s => s.output) ≠
      some (htmlRow (bytes "a.txt") (bytes "a.txt") (bytes "2019-04-10 12:00:00") (bytes "0")
        (bytes "File")) ∧
    (makeHtmlEntry (demoConn "") (bytes "a.txt") (bytes "2019-04-10 12:00:00") 10 32768).map
        (fun s => s.output) =
      some (htmlRow (bytes "a.txt") (bytes "a.txt") (bytes "2019-04-10 12:00:00") (bytes "10")
        (bytes "File")) := by
  decide

/-! ## The error response on the wire -/

theorem fprintf_output (s : Stream) (t : List Nat) (h : s.room = none) :
    (fprintf s t).output = s.output ++ t := by
  simp [fprintf, fwrite, h]

theorem sendHeaderLines_output (l : List (List Nat × List Nat)) :
    ∀ s : Stream, s.room = none → (sendHeaderLines l s).output = s.output ++ headerBlock l := by
  induction l with
  | nil => intro s _; simp [sendHeaderLines, headerBlock]
  | cons e rest ih =>
    intro s h
    obtain ⟨n, v⟩ := e
    simp only [sendHeaderLines, headerBlock]
    rw [ih _ (fprintf_room _ _ h), fprintf_output _ _ h]
    simp only [List.append_assoc]

theorem sendResponseHeaders_output (s : Stream) (rs : Properties) (h : s.room = none) :
    (sendResponseHeaders s rs).output = s.output ++ headerBlock rs.entries ++ CRLF := by
  unfold sendResponseHeaders
  rw [fprintf_output _ _ (sendHeaderLines_room _ _ h), sendHeaderLines_output _ _ h]

theorem findFrom_append_new (name v : List Nat) :
    ∀ (entries rest : List (List Nat × List Nat)) (k : Nat),
      (∀ e ∈ entries, e.1 ≠ name) →
      findFrom name k (entries ++ (name, v) :: rest) = some (k + entries.length, v) := by
  intro entries
  induction entries with
  | nil => intro rest k _; simp [findFrom]
  | cons e es ih =>
    intro rest k h
    obtain ⟨n, w⟩ := e
    have hn : n ≠ name := h (n, w) (List.mem_cons_self _ _)
    have ih2 := ih rest (k + 1) (fun e he => h e (List.mem_cons_of_mem _ he))
    simp only [List.cons_append, findFrom, if_neg hn, List.length_cons]
    exact ih2.trans (by congr 2; omega)

/-- Claim C13. For a status code `c`, a reason phrase `p` whose error page fits
the page buffer of `2*MAXBUF` characters, a header store with room for two more
entries and no `Content-Length` entry, and a connection that accepts every
write, `sendErrorResponse` returns, and what it appends to the connection is
the status line of `sendResponseStatus` for `c` and `p`, the header block of the
store with `Content-Length` and `Content-type: text/html` added, the blank
line, and then exactly the page `<html><head><title>c p</title></head><body>c
p</body></html>`; the `Content-Length` found in the store is the decimal length
of that page. -/
theorem sendErrorResponse_length_matches_body (cfg : Config) (o : Stream) (c : Int)
    (p : List Nat) (rs : Properties) (hroom : o.room = none)
    (hcap : rs.entries.length + 2 ≤ rs.cap)
    (hcl : ∀ e ∈ rs.entries, e.1 ≠ bytes "Content-Length")
    (hfit : (errorBody c p).length < 2 * cfg.MAXBUF) (hbuf : 2 * cfg.MAXBUF ≤ 2147483648) :
    errorBody c p = bytes "<html><head><title>" ++ (fmt_d c ++ [32] ++ p) ++
      bytes "</title></head><body>" ++ (fmt_d c ++ [32] ++ p) ++ bytes "</body></html>" ∧
    ∃ o2 h, sendErrorResponse cfg o c p rs = some (o2, h) ∧
      h.entries = rs.entries ++ [(bytes "Content-Length", fmt_lu (errorBody c p).length),
        (bytes "Content-type", bytes "text/html")] ∧
      findProperty h 0 (bytes "Content-Length")
        = some (rs.entries.length, fmt_lu (errorBody c p).length) ∧
      atoi (fmt_lu (errorBody c p).length) = ((errorBody c p).length : Int) ∧
      o2.output = (sendResponseStatus cfg o c p).output ++ headerBlock h.entries ++ CRLF ++
        errorBody c p := by
  refine ⟨by simp [errorBody, List.append_assoc], ?_⟩
  have hlen : (errorBody c p).length < 2147483648 := by omega
  have hp1 : putProperty rs (bytes "Content-Length") (fmt_lu (errorBody c p).length)
      = (⟨rs.cap, rs.entries ++ [(bytes "Content-Length", fmt_lu (errorBody c p).length)]⟩, true) := by
    unfold putProperty
    rw [if_pos (by omega)]
  have hp2 : putProperty
      ⟨rs.cap, rs.entries ++ [(bytes "Content-Length", fmt_lu (errorBody c p).length)]⟩
      (bytes "Content-type") (bytes "text/html")
      = (⟨rs.cap, rs.entries ++ [(bytes "Content-Length", fmt_lu (errorBody c p).length),
          (bytes "Content-type", bytes "text/html")]⟩, true) := by
    unfold putProperty
    rw [if_pos (by simp only [List.length_append, List.length_singleton]; omega)]
    simp only [List.append_assoc, List.singleton_append]
  have hr1 := sendResponseStatus_room cfg o c p hroom
  obtain ⟨H, hH⟩ : ∃ H : Properties, H = ⟨rs.cap, rs.entries ++
      [(bytes "Content-Length", fmt_lu (errorBody c p).length),
        (bytes "Content-type", bytes "text/html")]⟩ := ⟨_, rfl⟩
  obtain ⟨S, hS⟩ : ∃ S, S = sendResponseHeaders (sendResponseStatus cfg o c p) H := ⟨_, rfl⟩
  have hSroom : S.room = none := hS ▸ sendResponseHeaders_room _ _ hr1
  have hSout : S.output = (sendResponseStatus cfg o c p).output ++ headerBlock H.entries ++ CRLF :=
    hS ▸ sendResponseHeaders_output _ _ hr1
  obtain ⟨i2, hcopy⟩ := copy_reader_exact cfg (errorBody c p) S hSroom hlen
  have hs : sendErrorResponse cfg o c p rs
      = some (⟨S.input, S.eof, S.output ++ errorBody c p, none⟩, H) := by
    unfold sendErrorResponse
    simp only [hp1, hp2, tmpStringFile, ← hH, ← hS]
    rw [hcopy]
  refine ⟨_, _, hs, by rw [hH], ?_, atoi_fmt_lu _ hlen, ?_⟩
  · simp only [findProperty, List.drop_zero, hH]
    rw [findFrom_append_new _ _ _ _ 0 hcl]
    simp
  · simp only [hSout]

set_option maxRecDepth 100000 in
/-- Witness for claim C13: the response `404 Not Found` on an empty store. -/
theorem sendErrorResponse_length_matches_body_witness :
    errorBody 404 (bytes "Not Found") = bytes "<html><head><title>" ++
      (fmt_d 404 ++ [32] ++ bytes "Not Found") ++
      bytes "</title></head><body>" ++ (fmt_d 404 ++ [32] ++ bytes "Not Found") ++
      bytes "</body></html>" ∧
    ∃ o2 h, sendErrorResponse demoConfig (demoConn "") 404 (bytes "Not Found") ⟨10, []⟩
        = some (o2, h) ∧
      h.entries = [] ++ [(bytes "Content-Length", fmt_lu (errorBody 404 (bytes "Not Found")).length),
        (bytes "Content-type", bytes "text/html")] ∧
      findProperty h 0 (bytes "Content-Length")
        = some (0, fmt_lu (errorBody 404 (bytes "Not Found")).length) ∧
      atoi (fmt_lu (errorBody 404 (bytes "Not Found")).length)
        = ((errorBody 404 (bytes "Not Found")).length : Int) ∧
      o2.output = (sendResponseStatus demoConfig (demoConn "") 404 (bytes "Not Found")).output ++
        headerBlock h.entries ++ CRLF ++ errorBody 404 (bytes "Not Found") :=
  sendErrorResponse_length_matches_body demoConfig (demoConn "") 404 (bytes "Not Found") ⟨10, []⟩
    rfl (by decide) (by decide) (by decide) (by decide)

/-! ## `copyFileStreamBytes` copies a prefix, chunk by chunk -/

theorem fread_zero (i : Stream) : fread i 0 = ([], i) := by
  cases i
  simp [fread]

theorem fwrite_nil (o : Stream) : (fwrite o []).2 = o := by
  obtain ⟨a, b, c, d⟩ := o
  cases d <;> simp [fwrite]

theorem fread_at_end (i : Stream) (n : Nat) (h : i.eof = true) (h0 : i.input = []) :
    fread i n = ([], i) := by
  obtain ⟨a, b, c, d⟩ := i
  simp only at h h0
  subst h h0
  simp [fread]

theorem fread_fread (i : Stream) (k j : Nat) :
    (fread (fread i k).2 j).2 = (fread i (k + j)).2 ∧
    (fread i k).1 ++ (fread (fread i k).2 j).1 = (fread i (k + j)).1 := by
  obtain ⟨a, b, c, d⟩ := i
  simp only [fread, List.drop_drop, List.length_drop, List.take_add, and_true, Stream.mk.injEq,
    true_and]
  by_cases h1 : a.length < k
  · have h2 : a.length < k + j := by omega
    simp [h1, h2]
  · by_cases h2 : a.length < k + j
    · have h3 : a.length - k < j := by omega
      simp [h1, h2, h3]
    · have h3 : ¬ (a.length - k < j) := by omega
      simp [h1, h2, h3]

theorem fwrite_fits (o : Stream) (buf : List Nat) (h : ∀ r, o.room = some r → buf.length ≤ r) :
    fwrite o buf = (buf.length, ⟨o.input, o.eof, o.output ++ buf,
      o.room.map (fun r => r - buf.length)⟩) := by
  obtain ⟨a, b, c, d⟩ := o
  cases d with
  | none => simp [fwrite]
  | some r =>
    have hr : buf.length ≤ r := h r rfl
    simp [fwrite, List.take_of_length_le hr, hr]

theorem fwrite_fwrite (o : Stream) (a b : List Nat)
    (h : ∀ r, o.room = some r → a.length + b.length ≤ r) :
    (fwrite (fwrite o a).2 b).2 = (fwrite o (a ++ b)).2 := by
  have h1 : ∀ r, o.room = some r → a.length ≤ r := fun r hr => by have := h r hr; omega
  have h3 : ∀ r, o.room = some r → (a ++ b).length ≤ r := fun r hr => by
    have := h r hr; simp only [List.length_append]; omega
  rw [fwrite_fits o a h1, fwrite_fits o (a ++ b) h3]
  obtain ⟨x, y, z, d⟩ := o
  cases d with
  | none => simp [fwrite]
  | some r =>
    have hr := h r rfl
    have hb : b.length ≤ r - a.length := by omega
    simp [fwrite, List.take_of_length_le hb, Nat.sub_sub]

/-- The loop of `copyFileStreamBytes` refines one read of `n` bytes followed by
one write of what was read, when no write falls short. -/
theorem copyLoop_one_step (maxbuf : Nat) (hm : 0 < maxbuf) :
    ∀ (fuel : Nat) (i o : Stream) (n : Nat),
      (i.eof = true → i.input = []) →
      (∀ r, o.room = some r → min n i.input.length ≤ r) →
      n + 2 ≤ fuel →
      copyLoop maxbuf fuel i o (n : Int)
        = some ((fread i n).2, (fwrite o (fread i n).1).2, 0) := by
  intro fuel
  induction fuel with
  | zero => intro i o n _ _ h; omega
  | succ fuel ih =>
    intro i o n hinv hroom hfuel
    by_cases hn : n = 0
    · subst hn
      rw [copyLoop_nonpos _ _ _ _ _ (by simp), fread_zero, fwrite_nil]
    · by_cases heof : i.eof = true
      · rw [copyLoop_eof _ _ _ _ _ heof, fread_at_end i n heof (hinv heof), fwrite_nil]
      · have heof : i.eof = false := by simpa using heof
        have hc : 0 < (n : Int) ∧ i.eof = false := ⟨by omega, heof⟩
        have hk : (if (n : Int) < (maxbuf : Int) then (n : Int) else (maxbuf : Int)).toNat
            = min n maxbuf := by
          split <;> omega
        rw [copyLoop, if_pos hc]
        simp only [hk]
        obtain ⟨fuel2, rfl⟩ : ∃ f, fuel = f + 1 := ⟨fuel - 1, by omega⟩
        by_cases hlen : i.input.length < min n maxbuf
        · -- the input ends inside this chunk
          have hsame : fread i (min n maxbuf) = fread i n := by
            obtain ⟨a, b, c, d⟩ := i
            simp only at hlen
            have h1 : a.length < n := by omega
            simp [fread, hlen, h1, List.take_of_length_le (Nat.le_of_lt hlen),
              List.take_of_length_le (Nat.le_of_lt h1), List.drop_of_length_le (Nat.le_of_lt hlen),
              List.drop_of_length_le (Nat.le_of_lt h1)]
          have heof2 : (fread i n).2.eof = true := by
            have h1 : i.input.length < n := by omega
            simp [fread, h1]
          rw [hsame]
          by_cases hpos : 0 < (fread i n).1.length
          · rw [if_pos hpos]
            have hfit : ∀ r, o.room = some r → (fread i n).1.length ≤ r := by
              intro r hr
              have := hroom r hr
              simp only [fread, List.length_take]
              omega
            have hw : ¬ ((fwrite o (fread i n).1).1 < (fread i n).1.length) := by
              rw [fwrite_fits o _ hfit]
              simp
            rw [if_neg hw, copyLoop_eof _ _ _ _ _ heof2]
          · rw [if_neg hpos, copyLoop_eof _ _ _ _ _ heof2]
            have h0 : (fread i n).1 = [] := List.length_eq_zero.mp (by omega)
            rw [h0, fwrite_nil]
        · -- a full chunk is read
          have hlen2 : (fread i (min n maxbuf)).1.length = min n maxbuf := by
            simp only [fread, List.length_take]; omega
          have hpos : 0 < (fread i (min n maxbuf)).1.length := by omega
          have hfit : ∀ r, o.room = some r → (fread i (min n maxbuf)).1.length ≤ r := by
            intro r hr
            have := hroom r hr
            omega
          have hw : ¬ ((fwrite o (fread i (min n maxbuf)).1).1
              < (fread i (min n maxbuf)).1.length) := by
            rw [fwrite_fits o _ hfit]
            simp
          rw [if_pos hpos, if_neg hw]
          have hcast : (n : Int) - ((fread i (min n maxbuf)).1.length : Int)
              = ((n - min n maxbuf : Nat) : Int) := by
            rw [hlen2]; omega
          rw [hcast]
          have hinv2 : (fread i (min n maxbuf)).2.eof = true → (fread i (min n maxbuf)).2.input = [] := by
            intro h
            simp [fread, heof, hlen] at h
          have hin2 : (fread i (min n maxbuf)).2.input.length = i.input.length - min n maxbuf := by
            simp [fread]
          have hroom2 : ∀ r, (fwrite o (fread i (min n maxbuf)).1).2.room = some r →
              min (n - min n maxbuf) (fread i (min n maxbuf)).2.input.length ≤ r := by
            intro r hr
            rw [fwrite_fits o _ hfit] at hr
            simp only [Option.map_eq_some'] at hr
            obtain ⟨r0, hr0, hr1⟩ := hr
            have := hroom r0 hr0
            rw [hin2]
            omega
          rw [ih _ _ (n - min n maxbuf) hinv2 hroom2 (by omega)]
          have hsum : min n maxbuf + (n - min n maxbuf) = n := by omega
          have hff := fread_fread i (min n maxbuf) (n - min n maxbuf)
          rw [hsum] at hff
          rw [hff.1, fwrite_fwrite, hff.2]
          intro r hr
          have := hroom r hr
          have h2 : (fread (fread i (min n maxbuf)).2 (n - min n maxbuf)).1.length
              = min (n - min n maxbuf) (i.input.length - min n maxbuf) := by
            simp [fread]
          rw [hlen2, h2]
          omega

/-- Claim C16. For an input stream holding the bytes `xs` (its end-of-file
indicator set only when no byte is left) and a count `n ≥ 0`, when no write
falls short `copyFileStreamBytes` returns 0 and leaves both streams exactly as
one `fread` of `n` bytes followed by one `fwrite` of the bytes read: the output
has gained the first `min n |xs|` bytes of `xs`, in order, and the other bytes
of `xs` are still unread. -/
theorem copyFileStreamBytes_copies_prefix (cfg : Config) (i o : Stream) (n : Nat)
    (hinv : i.eof = true → i.input = [])
    (hroom : ∀ r, o.room = some r → min n i.input.length ≤ r) :
    copyFileStreamBytes cfg i o (n : Int)
      = some ((fread i n).2, (fwrite o (fread i n).1).2, 0) ∧
    (fwrite o (fread i n).1).2.output = o.output ++ i.input.take n ∧
    (i.input.take n).length = min n i.input.length ∧
    (fread i n).2.input = i.input.drop n ∧
    i.input.take n ++ (fread i n).2.input = i.input := by
  refine ⟨?_, ?_, ?_, ?_, ?_⟩
  · unfold copyFileStreamBytes
    exact copyLoop_one_step cfg.MAXBUF cfg.MAXBUF_pos _ i o n hinv hroom (by omega)
  · have hfit : ∀ r, o.room = some r → (fread i n).1.length ≤ r := by
      intro r hr
      have := hroom r hr
      simp only [fread, List.length_take]
      omega
    rw [fwrite_fits o _ hfit]
    simp [fread]
  · simp [List.length_take]
  · simp [fread]
  · simp [fread]

set_option maxRecDepth 100000 in
/-- Witness for claim C16: seven of ten bytes are copied in chunks of four to an
output with room for eight. -/
theorem copyFileStreamBytes_copies_prefix_witness :
    copyFileStreamBytes ⟨[], [], [], 4, by decide, 3, fmt_lu, fun _ _ _ => none⟩
        (demoConn "0123456789") ⟨[], false, bytes "ab", some 8⟩ ((7 : Nat) : Int)
      = some ((fread (demoConn "0123456789") 7).2,
          (fwrite ⟨[], false, bytes "ab", some 8⟩ (fread (demoConn "0123456789") 7).1).2, 0) ∧
    (fwrite ⟨[], false, bytes "ab", some 8⟩ (fread (demoConn "0123456789") 7).1).2.output
      = (⟨[], false, bytes "ab", some 8⟩ : Stream).output ++ (demoConn "0123456789").input.take 7 ∧
    ((demoConn "0123456789").input.take 7).length = min 7 (demoConn "0123456789").input.length ∧
    (fread (demoConn "0123456789") 7).2.input = (demoConn "0123456789").input.drop 7 ∧
    (demoConn "0123456789").input.take 7 ++ (fread (demoConn "0123456789") 7).2.input
      = (demoConn "0123456789").input :=
  copyFileStreamBytes_copies_prefix ⟨[], [], [], 4, by decide, 3, fmt_lu, fun _ _ _ => none⟩
    (demoConn "0123456789") ⟨[], false, bytes "ab", some 8⟩ 7 (by decide) (by decide)

/-! ## Reading the request headers -/

theorem fgetsLine_line : ∀ (l : List Nat) (k : Nat) (tail : List Nat),
    10 ∉ l → l.length + 1 ≤ k → fgetsLine k (l ++ 10 :: tail) = l ++ [10] := by
  intro l
  induction l with
  | nil =>
    intro k tail _ hk
    obtain ⟨k2, rfl⟩ : ∃ j, k = j + 1 := ⟨k - 1, by simp at hk; omega⟩
    simp [fgetsLine]
  | cons c cs ih =>
    intro k tail hmem hk
    obtain ⟨k2, rfl⟩ : ∃ j, k = j + 1 := ⟨k - 1, by simp at hk; omega⟩
    have hc : c ≠ 10 := fun h => hmem (h ▸ List.mem_cons_self _ _)
    have hcs : 10 ∉ cs := fun h => hmem (List.mem_cons_of_mem _ h)
    have ih2 := ih k2 tail hcs (by simp at hk; omega)
    simp only [List.cons_append, fgetsLine, if_neg hc]
    exact congrArg (fun t => c :: t) ih2

theorem fgets_line (size : Nat) (s : Stream) (l tail : List Nat)
    (hin : s.input = l ++ 10 :: tail) (hmem : 10 ∉ l) (hsize : l.length + 2 ≤ size) :
    (fgets size s).1 = some (l ++ [10]) ∧ (fgets size s).2.input = tail := by
  have h0 : size ≠ 0 := by omega
  have h1 : size ≠ 1 := by omega
  have hl := fgetsLine_line l (size - 1) tail hmem (by omega)
  unfold fgets
  rw [if_neg h0, if_neg h1]
  simp only [hin, hl]
  have hne : l ++ [10] ≠ [] := by simp
  rw [if_neg hne]
  simp

theorem indexOf?_first (c : Nat) : ∀ (l : List Nat), c ∈ l →
    l.indexOf? c = some (l.takeWhile (fun x => x != c)).length := by
  intro l
  induction l with
  | nil => intro h; simp at h
  | cons x xs ih =>
    intro h
    unfold List.indexOf? at ih ⊢
    by_cases hx : x = c
    · subst hx
      simp [List.findIdx?_cons, List.takeWhile]
    · have hmem : c ∈ xs := by
        rcases List.mem_cons.mp h with h1 | h1
        · exact absurd h1.symm hx
        · exact h1
      have hb : (x == c) = false := by simpa using hx
      have hb2 : (x != c) = true := by simpa using hx
      rw [List.findIdx?_cons, hb, List.findIdx?_succ, ih hmem]
      simp [List.takeWhile, hb2]

theorem take_takeWhile_length (p : Nat → Bool) : ∀ l : List Nat,
    l.take (l.takeWhile p).length = l.takeWhile p ∧
    l.drop (l.takeWhile p).length = l.dropWhile p := by
  intro l
  induction l with
  | nil => simp
  | cons x xs ih =>
    by_cases hx : p x = true
    · simp [List.takeWhile, List.dropWhile, hx, ih.1, ih.2]
    · have hx2 : p x = false := by simpa using hx
      simp [List.takeWhile, List.dropWhile, hx2]

theorem isHeaderLine_facts (l : List Nat) (h : isHeaderLine l = true) :
    l ≠ [] ∧ 0 ∉ l ∧ 10 ∉ l ∧ 13 ∉ l := by
  unfold isHeaderLine at h
  simp only [Bool.and_eq_true, Bool.not_eq_true', List.isEmpty_eq_false, List.all_eq_true,
    bne_iff_ne, ne_eq] at h
  obtain ⟨hne, hall⟩ := h
  refine ⟨?_, fun h0 => (hall 0 h0).1.1 rfl, fun h0 => (hall 10 h0).1.2 rfl,
    fun h0 => (hall 13 h0).2 rfl⟩
  intro h0
  simp [h0] at hne

theorem trim_newline_crlf (l : List Nat) (h10 : 10 ∉ l) (h13 : 13 ∉ l) :
    trim_newline (l ++ [13] ++ [10]) = l := by
  unfold trim_newline
  rw [List.rdropWhile_concat_pos _ _ _ (by decide), List.rdropWhile_concat_pos _ _ _ (by decide)]
  rw [List.rdropWhile_eq_self_iff]
  intro hl
  have hmem := List.getLast_mem hl
  intro hp
  simp only [Bool.or_eq_true, beq_iff_eq] at hp
  rcases hp with hp | hp
  · exact h10 (hp ▸ hmem)
  · exact h13 (hp ▸ hmem)

/-- One iteration of the loop of `readRequestHeaders` on a header line that fits
the buffer: the line is consumed with its `CRLF`. -/
theorem fgets_header_line (size : Nat) (s : Stream) (l tail : List Nat)
    (hl : isHeaderLine l = true) (hsize : l.length + 3 ≤ size)
    (hin : s.input = l ++ CRLF ++ tail) :
    ∃ buf, (fgets size s).1 = some buf ∧ trim_newline (cstr buf) = l ∧
      (fgets size s).2.input = tail := by
  obtain ⟨_, h0, h10, h13⟩ := isHeaderLine_facts l hl
  have hin2 : s.input = (l ++ [13]) ++ 10 :: tail := by
    rw [hin]; simp [CRLF]
  have hm : 10 ∉ l ++ [13] := by simp [h10]
  obtain ⟨hb, hi⟩ := fgets_line size s (l ++ [13]) tail hin2 hm (by simp; omega)
  refine ⟨_, hb, ?_, hi⟩
  have hc : cstr (l ++ [13] ++ [10]) = l ++ [13] ++ [10] := by
    unfold cstr
    rw [List.takeWhile_eq_self_iff]
    intro x hx
    simp only [List.append_assoc, List.mem_append, List.mem_singleton] at hx
    rcases hx with hx | hx | hx
    · have : x ≠ 0 := fun h => h0 (h ▸ hx)
      simpa using this
    · subst hx; decide
    · subst hx; decide
  rw [hc]
  exact trim_newline_crlf l h10 h13

theorem fgets_blank_line (size : Nat) (s : Stream) (rest : List Nat) (hsize : 3 ≤ size)
    (hin : s.input = CRLF ++ rest) :
    ∃ buf, (fgets size s).1 = some buf ∧ trim_newline (cstr buf) = [] ∧
      (fgets size s).2.input = rest := by
  have hin2 : s.input = [13] ++ 10 :: rest := by rw [hin]; simp [CRLF]
  obtain ⟨hb, hi⟩ := fgets_line size s [13] rest hin2 (by decide) (by simp; omega)
  exact ⟨_, hb, by decide, hi⟩

theorem readHeadersLoop_lines (size : Nat) (hsize : 3 ≤ size) (rest : List Nat) :
    ∀ (lines : List (List Nat)) (fuel : Nat) (s : Stream) (h : Properties),
      s.input = headerWire lines rest →
      (∀ l ∈ lines, isHeaderLine l = true ∧ l.length + 3 ≤ size) →
      h.entries.length + (headerPairs lines).length ≤ h.cap →
      lines.length + 1 ≤ fuel →
      ∃ s2, readHeadersLoop size fuel s h = some (s2, ⟨h.cap, h.entries ++ headerPairs lines⟩) ∧
        s2.input = rest := by
  intro lines
  induction lines with
  | nil =>
    intro fuel s h hin _ _ hfuel
    obtain ⟨fuel2, rfl⟩ : ∃ j, fuel = j + 1 := ⟨fuel - 1, by omega⟩
    obtain ⟨buf, hb, ht, hi⟩ := fgets_blank_line size s rest hsize hin
    refine ⟨(fgets size s).2, ?_, hi⟩
    unfold readHeadersLoop
    generalize hg : fgets size s = g at hb hi ⊢
    obtain ⟨g1, g2⟩ := g
    simp only at hb
    subst hb
    simp only [ht, if_true, headerPairs, List.append_nil]
  | cons l more ih =>
    intro fuel s h hin hlines hcap hfuel
    obtain ⟨fuel2, rfl⟩ : ∃ j, fuel = j + 1 := ⟨fuel - 1, by omega⟩
    have hl := hlines l (List.mem_cons_self _ _)
    have hmore : ∀ m ∈ more, isHeaderLine m = true ∧ m.length + 3 ≤ size :=
      fun m hm => hlines m (List.mem_cons_of_mem _ hm)
    obtain ⟨buf, hb, ht, hi⟩ := fgets_header_line size s l (headerWire more rest) hl.1 hl.2 hin
    have hne : l ≠ [] := (isHeaderLine_facts l hl.1).1
    unfold readHeadersLoop
    generalize hg : fgets size s = g at hb hi ⊢
    obtain ⟨g1, g2⟩ := g
    simp only at hb hi
    subst hb
    simp only [ht, if_neg hne]
    by_cases hcolon : 58 ∈ l
    · rw [indexOf?_first 58 l hcolon]
      have hpairs : headerPairs (l :: more) = (headerName l, headerValue l) :: headerPairs more := by
        simp [headerPairs, hcolon]
      rw [hpairs] at hcap ⊢
      simp only [List.length_cons] at hcap
      have hput : putProperty h (l.take (l.takeWhile (fun x => x != 58)).length)
          ((l.drop ((l.takeWhile (fun x => x != 58)).length + 1)).dropWhile (fun c => c == 32))
          = (⟨h.cap, h.entries ++ [(headerName l, headerValue l)]⟩, true) := by
        unfold putProperty
        rw [if_pos (by omega)]
        have hd : l.drop ((l.takeWhile (fun x => x != 58)).length + 1)
            = (l.dropWhile (fun x => x != 58)).drop 1 := by
          rw [← (take_takeWhile_length (fun x => x != 58) l).2, List.drop_drop, Nat.add_comm]
        rw [(take_takeWhile_length (fun x => x != 58) l).1, hd]
        rfl
      simp only [hput]
      obtain ⟨s2, h2, hs2⟩ := ih fuel2 g2 ⟨h.cap, h.entries ++ [(headerName l, headerValue l)]⟩ hi
        hmore (by simp only [List.length_append, List.length_singleton]; omega)
        (by simp only [List.length_cons] at hfuel; omega)
      refine ⟨s2, ?_, hs2⟩
      rw [h2]
      simp
    · rw [indexOf?_none_of_not_mem l 58 hcolon]
      have hpairs : headerPairs (l :: more) = headerPairs more := by
        simp [headerPairs, hcolon]
      rw [hpairs] at hcap ⊢
      exact ih fuel2 g2 h hi hmore hcap (by simp only [List.length_cons] at hfuel; omega)

theorem headerWire_length (rest : List Nat) : ∀ lines : List (List Nat),
    lines.length + 1 ≤ (headerWire lines rest).length := by
  intro lines
  induction lines with
  | nil => simp [headerWire, CRLF]
  | cons l more ih =>
    simp only [headerWire, CRLF, List.length_append, List.length_cons, List.length_nil]
    omega

set_option maxRecDepth 100000 in
/-- Claim C17, counterexample. With a buffer of 64 characters, the one header
line `Accept: text/html,application/xhtml+xml,application/xml;q=0.9,image/webp,*/*;q=0.8`
of 82 characters is read in pieces: the value stored for `Accept` is only the
part of the text that fitted the first piece, not the text after the colon. -/
theorem readRequestHeaders_long_line_is_cut :
    (readRequestHeaders demoConfig ⟨headerWire [longAccept] (bytes "body"), false, [], none⟩
        ⟨10, []⟩).map (fun r => r.2.entries)
      = some [(bytes "Accept", bytes "text/html,application/xhtml+xml,application/xml;q=0.9,i")] ∧
    headerPairs [longAccept] = [(bytes "Accept",
      bytes "text/html,application/xhtml+xml,application/xml;q=0.9,image/webp,*/*;q=0.8")] ∧
    (readRequestHeaders demoConfig ⟨headerWire [longAccept] (bytes "body"), false, [], none⟩
        ⟨10, []⟩).map (fun r => r.2.entries) ≠ some (headerPairs [longAccept]) := by
  decide

/-- Claim C17, as amended. The input is made of header lines, each a non-empty
text without NUL, CR and LF that fits the read buffer together with its `CRLF`
(at most `MAXBUF - 3` characters), followed by a blank line and arbitrary
further bytes, and the store has room for as many entries as there are lines
with a colon. Then `readRequestHeaders` returns, the store has gained exactly
one pair per line with a colon, in input order, the name being the text before
the line's first colon and the value the text after it without its leading
spaces, nothing for a line without a colon, and the bytes after the blank line
are still unread. The line `Host: localhost:8080` stands for the pair of `Host`
and `localhost:8080`. -/
theorem readRequestHeaders_lines_within_buffer (cfg : Config) (s : Stream) (h : Properties)
    (lines : List (List Nat)) (rest : List Nat) (hbuf : 3 ≤ cfg.MAXBUF)
    (hlines : ∀ l ∈ lines, isHeaderLine l = true ∧ l.length + 3 ≤ cfg.MAXBUF)
    (hcap : h.entries.length + (headerPairs lines).length ≤ h.cap)
    (hin : s.input = headerWire lines rest) :
    (∃ s2, readRequestHeaders cfg s h = some (s2, ⟨h.cap, h.entries ++ headerPairs lines⟩) ∧
      s2.input = rest) ∧
    headerPairs [bytes "Host: localhost:8080"] = [(bytes "Host", bytes "localhost:8080")] ∧
    headerPairs [bytes "no colon here"] = [] := by
  refine ⟨?_, by decide, by decide⟩
  unfold readRequestHeaders
  refine readHeadersLoop_lines cfg.MAXBUF hbuf rest lines _ s h hin hlines hcap ?_
  rw [hin]
  have := headerWire_length rest lines
  omega

set_option maxRecDepth 100000 in
/-- Witness for claim C17: three header lines, one of them without a colon, then
the blank line and a body. -/
theorem readRequestHeaders_lines_within_buffer_witness :
    (∃ s2, readRequestHeaders demoConfig
        ⟨headerWire [bytes "Host: localhost:8080", bytes "junk", bytes "A:   b c"] (bytes "body"),
          false, [], none⟩ ⟨10, []⟩
        = some (s2, ⟨10, [] ++ headerPairs [bytes "Host: localhost:8080", bytes "junk",
            bytes "A:   b c"]⟩) ∧
      s2.input = bytes "body") ∧
    headerPairs [bytes "Host: localhost:8080"] = [(bytes "Host", bytes "localhost:8080")] ∧
    headerPairs [bytes "no colon here"] = [] :=
  readRequestHeaders_lines_within_buffer demoConfig
    ⟨headerWire [bytes "Host: localhost:8080", bytes "junk", bytes "A:   b c"] (bytes "body"),
      false, [], none⟩ ⟨10, []⟩
    [bytes "Host: localhost:8080", bytes "junk", bytes "A:   b c"] (bytes "body")
    (by decide) (by decide) (by decide) rfl

end HttpServer
